import Mathlib

/-
Verification of the threadalloc slab allocator (src/unnamed/part_001, the
pthread-based revision whose functions are slab_alloc, slab_free,
allocate_new_slab and slab_thread_destructor, with the data model of the
first alloc.h revision: Slab {mem, raw_allocation, block_size, total_blocks,
free_count, free_list, next} and ThreadCache {current_slab, partial_slabs,
fastbin, fastbin_count}).

The embedding models a single thread's view of the allocator as a state
machine:
  * addresses are natural numbers (the code's uintptr_t values; no address
    computed here approaches 2^64, so Nat arithmetic agrees with the C
    unsigned arithmetic);
  * a Slab header is a record; the store `slabs` maps each slab's aligned
    base address to its header.  The code stores the header itself at the
    aligned base and writes the back-pointer `*((Slab **)slab->mem) = slab`
    at offset 0, so loading one word at a region base and following it to
    the header is exactly a lookup of that base address in the store;
  * the intrusive singly linked lists threaded through the blocks' `next`
    words (slab free lists and the fastbin) are modelled as Lean lists of
    block addresses: every operation the code performs on them is a head
    push, a head pop, or a bounded sequence of those;
  * the list of slabs linked through Slab.next is kept as in the code: an
    optional head address in the cache plus a `next` field in each header;
  * the system allocator is a script `mallocs : List (Option Nat)` of the
    raw addresses malloc will return (none = malloc fails, as does an
    exhausted script).
-/

set_option maxRecDepth 40000

namespace ThreadAlloc

/-- BLOCK_SIZE from part_001 line 9: 64-byte blocks. -/
def BLOCK_SIZE : Nat := 64

/-- BLOCK_COUNT from part_001 line 10: 1024 blocks per slab region. -/
def BLOCK_COUNT : Nat := 1024

/-- ALIGN_UP from part_001 line 11: (((x) + ((align)-1)) and-not (align-1)).
For a power-of-two `align` and values that do not overflow uintptr_t this
bit mask equals rounding x up to the next multiple of align, which is how
it is written here over Nat. -/
def ALIGN_UP (x align : Nat) : Nat := ((x + (align - 1)) / align) * align

/-- Size in bytes of the C struct Slab of alloc.h (first revision): two
pointers (mem, raw_allocation), three size_t (block_size, total_blocks,
free_count) and two pointers (free_list, next), eight bytes each on the
LP64 targets this pthread code is written for: 7 * 8 = 56. -/
def sizeof_Slab : Nat := 56

/-- SLAB_OVERHEAD from part_001 line 12: ALIGN_UP(sizeof(Slab), BLOCK_SIZE).
Note this is a byte count (56 rounded up to 64), although the code comment
says it is a number of blocks and uses it as one. -/
def SLAB_OVERHEAD : Nat := ALIGN_UP sizeof_Slab BLOCK_SIZE

/-- EFFECTIVE_BLOCKS from part_001 line 13: BLOCK_COUNT - SLAB_OVERHEAD. -/
def EFFECTIVE_BLOCKS : Nat := BLOCK_COUNT - SLAB_OVERHEAD

/-- BLOCK_CACHE_LIMIT from part_001 line 14. -/
def BLOCK_CACHE_LIMIT : Nat := 64

/-- BLOCK_CACHE_REFILL_LIMIT from part_001 line 15. -/
def BLOCK_CACHE_REFILL_LIMIT : Nat := 32

/-- Slab header written as the spec's words say it should be computed:
ceil(sizeof(Slab) / BLOCK_SIZE) blocks.  Kept separate from SLAB_OVERHEAD
(the code's value) so the two can be compared. -/
def spec_slab_overhead : Nat := (sizeof_Slab + BLOCK_SIZE - 1) / BLOCK_SIZE

/-- Usable slots as the spec's words compute them: BLOCK_COUNT minus the
header's block count. -/
def spec_effective_blocks : Nat := BLOCK_COUNT - spec_slab_overhead

/-- Slab header, alloc.h lines 10-18.  block_size and total_blocks exist in
the struct but part_001 never writes or reads them, so they are omitted.
free_list is the intrusive chain of free block addresses. -/
structure Slab where
  mem : Nat
  raw_allocation : Nat
  free_count : Nat
  free_list : List Nat
  next : Option Nat
  deriving Repr, DecidableEq

/-- ThreadCache, alloc.h lines 20-25.  current_slab and partial_slabs hold
the base address of the head slab (the chains continue through Slab.next);
fastbin is the intrusive list of cached free block addresses. -/
structure ThreadCache where
  current_slab : Option Nat
  partial_slabs : Option Nat
  fastbin : List Nat
  fastbin_count : Nat
  deriving Repr, DecidableEq

/-- Whole-machine state for one thread: the slab store (aligned base address
to header), the thread's cache, and the system allocator script. -/
structure AllocState where
  slabs : List (Nat × Slab)
  cache : ThreadCache
  mallocs : List (Option Nat)
  deriving Repr, DecidableEq

/-- Loading the first word of the aligned region that contains an address:
part_001 line 251, (uintptr_t)block and-not (BLOCK_SIZE * BLOCK_COUNT - 1),
written over Nat as subtracting the remainder (equal to the C mask for this
power-of-two size). -/
def maskRegion (b : Nat) : Nat := b - b % (BLOCK_SIZE * BLOCK_COUNT)

/-- Reading the slab header stored at base address k (the back-pointer load
*(Slab **)mem_start): first matching entry of the store. -/
def lookupSlab : List (Nat × Slab) → Nat → Option Slab
  | [], _ => none
  | (k', sl) :: rest, k => if k' = k then some sl else lookupSlab rest k

/-- Writing the slab header back at base address k: replaces the first
matching entry of the store. -/
def updateSlab : List (Nat × Slab) → Nat → Slab → List (Nat × Slab)
  | [], _, _ => []
  | (k', sl') :: rest, k, sl =>
      if k' = k then (k', sl) :: rest else (k', sl') :: updateSlab rest k sl

/-- Head of the malloc script: the next value the system allocator returns. -/
def mallocHead : List (Option Nat) → Option Nat
  | [] => none
  | r :: _ => r

/-- Free list a fresh slab is threaded with, part_001 lines 129-145: the
EFFECTIVE_BLOCKS block addresses in ascending order starting at
mem + SLAB_OVERHEAD * BLOCK_SIZE. -/
def buildFreeList (aligned_addr : Nat) : List Nat :=
  (List.range EFFECTIVE_BLOCKS).map
    (fun i => aligned_addr + SLAB_OVERHEAD * BLOCK_SIZE + i * BLOCK_SIZE)

/-- allocate_new_slab, part_001 lines 106-153.  Pops the malloc script; on
failure returns none and the state (the C function returns NULL).  On
success places the header at ALIGN_UP(raw, BLOCK_SIZE*BLOCK_COUNT), records
raw_allocation, threads the free list, sets free_count = EFFECTIVE_BLOCKS,
links the slab at the head of the cache's current_slab list
(slab->next = cache->current_slab; cache->current_slab = slab) and returns
its base address. -/
def allocate_new_slab (s : AllocState) : Option Nat × AllocState :=
  match s.mallocs with
  | [] => (none, s)
  | none :: rest => (none, { s with mallocs := rest })
  | some raw_mem :: rest =>
      let alignment := BLOCK_SIZE * BLOCK_COUNT
      let aligned_addr := ALIGN_UP raw_mem alignment
      let slab : Slab :=
        { mem := aligned_addr
          raw_allocation := raw_mem
          free_count := EFFECTIVE_BLOCKS
          free_list := buildFreeList aligned_addr
          next := s.cache.current_slab }
      (some aligned_addr,
        { slabs := (aligned_addr, slab) :: s.slabs
          cache := { s.cache with current_slab := some aligned_addr }
          mallocs := rest })

/-- Result of one slab_alloc call.  fuel is a model artifact: the bound on
the depth of the C function's tail recursion was reached (claim C10 shows
depth 2 always suffices in single-threaded executions).  stuck marks a step
where the C code would dereference memory outside the modelled store
(possible only outside the reachable states). -/
inductive AResult where
  | fuel : AResult
  | stuck : AResult
  | oom : AllocState → AResult
  | ok : Nat → AllocState → AResult
  deriving Repr, DecidableEq

/-- Refill pop loop of part_001 lines 183-187: detach n heads of a free
list, keeping the batch in pop order; none if the list runs out (the C loop
would dereference a null block). -/
def detachBatch : Nat → List Nat → Option (List Nat × List Nat)
  | 0, l => some ([], l)
  | _ + 1, [] => none
  | n + 1, b :: rest =>
      match detachBatch n rest with
      | none => none
      | some (batch, rem) => some (b :: batch, rem)

/-- Tiers 3 and 4 of slab_alloc, part_001 lines 213-229: pop the head of
partial_slabs into current_slab and retry, else build a fresh slab and
retry; recurse is the tail call slab_alloc(). -/
def slab_alloc_tiers34 (recurse : AllocState → AResult) (s : AllocState) : AResult :=
  match s.cache.partial_slabs with
  | some pk =>
      match lookupSlab s.slabs pk with
      | none => .stuck
      | some slab =>
          recurse { s with cache :=
            { s.cache with partial_slabs := slab.next, current_slab := some pk } }
  | none =>
      match allocate_new_slab s with
      | (none, s') => .oom s'
      | (some k, s') =>
          recurse { s' with cache := { s'.cache with current_slab := some k } }

/-- Body of one slab_alloc activation, part_001 lines 161-230, with the
tail call abstracted as recurse. -/
def slab_alloc_body (recurse : AllocState → AResult) (s : AllocState) : AResult :=
  let cache := s.cache
  match cache.fastbin with
  | block :: rest =>
      .ok block { s with cache :=
        { cache with fastbin := rest, fastbin_count := cache.fastbin_count - 1 } }
  | [] =>
      match cache.current_slab with
      | some k =>
          match lookupSlab s.slabs k with
          | none => .stuck
          | some slab =>
              if slab.free_count ≠ 0 then
                if slab.free_count > BLOCK_CACHE_REFILL_LIMIT then
                  match detachBatch BLOCK_CACHE_REFILL_LIMIT slab.free_list with
                  | none => .stuck
                  | some (batch, rem) =>
                      let slab1 := { slab with
                        free_list := rem
                        free_count := slab.free_count - BLOCK_CACHE_REFILL_LIMIT }
                      match batch.foldl (fun fb b => b :: fb) cache.fastbin with
                      | [] => .stuck
                      | blk :: fbrest =>
                          .ok blk
                            { slabs := updateSlab s.slabs k slab1
                              cache := { cache with
                                fastbin := fbrest
                                fastbin_count :=
                                  cache.fastbin_count + BLOCK_CACHE_REFILL_LIMIT - 1 }
                              mallocs := s.mallocs }
                else
                  match slab.free_list with
                  | [] => .stuck
                  | blk :: fl =>
                      let slab1 := { slab with
                        free_list := fl, free_count := slab.free_count - 1 }
                      .ok blk
                        { slabs := updateSlab s.slabs k slab1
                          cache := { cache with current_slab :=
                            if slab1.free_count = 0 then none else some k }
                          mallocs := s.mallocs }
              else
                slab_alloc_tiers34 recurse s
      | none => slab_alloc_tiers34 recurse s

/-- slab_alloc, part_001 lines 161-230, with an explicit bound on the depth
of its tail recursion. -/
def slab_alloc : Nat → AllocState → AResult
  | 0, _ => .fuel
  | n + 1, s => slab_alloc_body (fun s' => slab_alloc n s') s

/-- slab_free, part_001 lines 238-264.  none marks the dereference of a
region base outside the modelled store (the C code would read unmapped
memory). -/
def slab_free (s : AllocState) (block : Nat) : Option AllocState :=
  let cache := s.cache
  if cache.fastbin_count < BLOCK_CACHE_LIMIT then
    some { s with cache := { cache with
      fastbin := block :: cache.fastbin
      fastbin_count := cache.fastbin_count + 1 } }
  else
    let mem_start := maskRegion block
    match lookupSlab s.slabs mem_start with
    | none => none
    | some parent =>
        let parent1 := { parent with
          free_list := block :: parent.free_list
          free_count := parent.free_count + 1 }
        if parent1.free_count = 1 ∧ cache.current_slab ≠ some mem_start then
          some { s with
            slabs := updateSlab s.slabs mem_start
              { parent1 with next := cache.partial_slabs }
            cache := { cache with partial_slabs := some mem_start } }
        else
          some { s with slabs := updateSlab s.slabs mem_start parent1 }

/-- Raw allocations released while walking one chain of slabs linked
through Slab.next, as the two loops of slab_thread_destructor do
(part_001 lines 32-56).  fuel bounds the walk; every reachable chain is
shorter than the store, so fuel = store length + 1 is exact.  A next
pointer outside the store would crash the C code; the walk stops there. -/
def chainRaws : Nat → List (Nat × Slab) → Option Nat → List Nat
  | 0, _, _ => []
  | _ + 1, _, none => []
  | f + 1, st, some k =>
      match lookupSlab st k with
      | none => []
      | some sl => sl.raw_allocation :: chainRaws f st sl.next

/-- slab_thread_destructor, part_001 lines 28-60: the raw allocations
returned to the system allocator, in order: first the current_slab chain,
then the partial_slabs chain. -/
def slab_thread_destructor (s : AllocState) : List Nat :=
  chainRaws (s.slabs.length + 1) s.slabs s.cache.current_slab ++
    chainRaws (s.slabs.length + 1) s.slabs s.cache.partial_slabs

/-- Thread cache right after its lazy calloc(1, ...) in get_thread_cache
(part_001 line 81): all fields zero. -/
def freshCache : ThreadCache :=
  { current_slab := none, partial_slabs := none, fastbin := [], fastbin_count := 0 }

/-- State of a fresh thread, with the system allocator scripted. -/
def initState (script : List (Option Nat)) : AllocState :=
  { slabs := [], cache := freshCache, mallocs := script }

/-- One public slab_alloc call (the C function has no fuel argument; fuel 4
is beyond the recursion depth of any state this development evaluates, and
claim C10 proves 2 already suffices on reachable states). -/
def allocOnce (s : AllocState) : Option AllocState :=
  match slab_alloc 4 s with
  | .ok _ s' => some s'
  | _ => none

/-- n public slab_alloc calls in sequence, all required to return a block. -/
def iterAlloc : Nat → AllocState → Option AllocState
  | 0, s => some s
  | n + 1, s =>
      match allocOnce s with
      | some s' => iterAlloc n s'
      | none => none

/-- n public slab_alloc calls in sequence, collecting the returned block
addresses in call order. -/
def allocCollect : Nat → AllocState → Option (List Nat × AllocState)
  | 0, s => some ([], s)
  | n + 1, s =>
      match slab_alloc 4 s with
      | .ok b s' =>
          match allocCollect n s' with
          | some (bs, s'') => some (b :: bs, s'')
          | none => none
      | _ => none

/-- A sequence of public slab_free calls. -/
def freeMany : List Nat → AllocState → Option AllocState
  | [], s => some s
  | b :: bs, s =>
      match slab_free s b with
      | some s' => freeMany bs s'
      | none => none

/-- Ownership recovery property of a block address (spec section 8,
invariant 4): loading the word at the enclosing aligned region's base
yields a slab header whose mem field equals that base. -/
def GoodBlock (st : List (Nat × Slab)) (b : Nat) : Prop :=
  (lookupSlab st (maskRegion b)).map Slab.mem = some (maskRegion b)

/-- Shape of the partial_slabs list: the chain through Slab.next visits the
keys in l, every visited slab is in the store with at least one free block,
and no key repeats (so the chain is finite and the walk in Tier 3 and in
the destructor is the walk of l). -/
inductive PChain (st : List (Nat × Slab)) : Option Nat → List Nat → Prop where
  | nil : PChain st none []
  | cons {k : Nat} {sl : Slab} {l : List Nat} :
      lookupSlab st k = some sl → 1 ≤ sl.free_count → k ∉ l →
      PChain st sl.next l → PChain st (some k) (k :: l)

/-- Aligned base addresses the scripted system allocator will hand out. -/
def scriptAligned (script : List (Option Nat)) : List Nat :=
  (script.filterMap id).map (fun r => ALIGN_UP r (BLOCK_SIZE * BLOCK_COUNT))

/-- Single-thread state invariant of the allocator, holding between public
operations (spec sections 3 and 8).  The last three components model the
system allocator contract: regions it hands out are fresh (they do not
collide with a live slab region or with one another). -/
structure Inv (s : AllocState) : Prop where
  fb_len : s.cache.fastbin_count = s.cache.fastbin.length
  fb_cap : s.cache.fastbin_count ≤ BLOCK_CACHE_LIMIT
  wellKeyed : ∀ k sl, (k, sl) ∈ s.slabs → sl.mem = k ∧ k % (BLOCK_SIZE * BLOCK_COUNT) = 0
  counts : ∀ k sl, (k, sl) ∈ s.slabs → sl.free_count = sl.free_list.length
  flMask : ∀ k sl, (k, sl) ∈ s.slabs → ∀ b ∈ sl.free_list, maskRegion b = k
  fbGood : ∀ b ∈ s.cache.fastbin, GoodBlock s.slabs b
  curIn : ∀ k, s.cache.current_slab = some k →
    ∃ sl, lookupSlab s.slabs k = some sl ∧ 1 ≤ sl.free_count
  chain : ∃ l, PChain s.slabs s.cache.partial_slabs l ∧
    (∀ k, s.cache.current_slab = some k → k ∉ l)
  keysND : (s.slabs.map Prod.fst).Nodup
  scrFresh : ∀ a ∈ scriptAligned s.mallocs, a ∉ s.slabs.map Prod.fst
  scrND : (scriptAligned s.mallocs).Nodup

/-- States a single thread can reach: a fresh cache (with any system
allocator script whose regions are mutually fresh), closed under slab_alloc
and under slab_free of a block satisfying the ownership-recovery property
(freeing anything else is the undefined behaviour of spec section 7, which
the code does not defend against). -/
inductive Reachable : AllocState → Prop where
  | init : ∀ script, (scriptAligned script).Nodup → Reachable (initState script)
  | alloc : ∀ {s : AllocState} {f b : Nat} {s' : AllocState},
      Reachable s → slab_alloc f s = .ok b s' → Reachable s'
  | allocOOM : ∀ {s : AllocState} {f : Nat} {s' : AllocState},
      Reachable s → slab_alloc f s = .oom s' → Reachable s'
  | free : ∀ {s : AllocState} {b : Nat} {s' : AllocState},
      Reachable s → GoodBlock s.slabs b → slab_free s b = some s' → Reachable s'

/-- Fastbin bookkeeping invariant of claim C4: the counter is the length of
the fastbin list and never exceeds BLOCK_CACHE_LIMIT. -/
def FastbinInv (c : ThreadCache) : Prop :=
  c.fastbin_count = c.fastbin.length ∧ c.fastbin_count ≤ BLOCK_CACHE_LIMIT

/-! Store lemmas: reading and writing a header through its base address. -/

theorem lookupSlab_mem {st : List (Nat × Slab)} {k : Nat} {sl : Slab}
    (h : lookupSlab st k = some sl) : (k, sl) ∈ st := by
  induction st with
  | nil => simp [lookupSlab] at h
  | cons p rest ih =>
      obtain ⟨k', sl'⟩ := p
      by_cases hk : k' = k
      · subst hk
        simp [lookupSlab] at h
        simp [h]
      · simp [lookupSlab, hk] at h
        exact List.mem_cons_of_mem _ (ih h)

theorem lookupSlab_update_self {st : List (Nat × Slab)} {k : Nat} {sl₀ : Slab}
    (h : lookupSlab st k = some sl₀) (sl : Slab) :
    lookupSlab (updateSlab st k sl) k = some sl := by
  induction st with
  | nil => simp [lookupSlab] at h
  | cons p rest ih =>
      obtain ⟨k', sl'⟩ := p
      by_cases hk : k' = k
      · subst hk
        simp [updateSlab, lookupSlab]
      · simp [lookupSlab, hk] at h
        simp [updateSlab, lookupSlab, hk, ih h]

theorem lookupSlab_update_ne {st : List (Nat × Slab)} {k k' : Nat} (sl : Slab)
    (h : k' ≠ k) : lookupSlab (updateSlab st k sl) k' = lookupSlab st k' := by
  induction st with
  | nil => simp [updateSlab]
  | cons p rest ih =>
      obtain ⟨k₀, sl₀⟩ := p
      by_cases hk : k₀ = k
      · subst hk
        simp [updateSlab, lookupSlab, Ne.symm h]
      · simp [updateSlab, lookupSlab, hk, ih]

theorem updateSlab_mem_cases {st : List (Nat × Slab)} {k : Nat} {sl : Slab}
    {k' : Nat} {sl' : Slab} (h : (k', sl') ∈ updateSlab st k sl) :
    (k' = k ∧ sl' = sl) ∨ (k', sl') ∈ st := by
  induction st with
  | nil => simp [updateSlab] at h
  | cons p rest ih =>
      obtain ⟨k₀, sl₀⟩ := p
      by_cases hk : k₀ = k
      · subst hk
        simp [updateSlab] at h
        rcases h with h | h
        · exact Or.inl ⟨h.1.symm ▸ rfl, h.2⟩
        · exact Or.inr (List.mem_cons_of_mem _ h)
      · simp [updateSlab, hk] at h
        rcases h with h | h
        · exact Or.inr (by simp [h])
        · rcases ih h with h' | h'
          · exact Or.inl h'
          · exact Or.inr (List.mem_cons_of_mem _ h')

theorem updateSlab_keys (st : List (Nat × Slab)) (k : Nat) (sl : Slab) :
    (updateSlab st k sl).map Prod.fst = st.map Prod.fst := by
  induction st with
  | nil => simp [updateSlab]
  | cons p rest ih =>
      obtain ⟨k₀, sl₀⟩ := p
      by_cases hk : k₀ = k
      · subst hk; simp [updateSlab]
      · simp [updateSlab, hk, ih]

theorem lookupSlab_keys {st : List (Nat × Slab)} {k : Nat} {sl : Slab}
    (h : lookupSlab st k = some sl) : k ∈ st.map Prod.fst := by
  exact List.mem_map.2 ⟨(k, sl), lookupSlab_mem h, rfl⟩

theorem lookupSlab_cons_ne {st : List (Nat × Slab)} {k₀ k : Nat} {sl₀ : Slab}
    (h : k₀ ≠ k) : lookupSlab ((k₀, sl₀) :: st) k = lookupSlab st k := by
  simp [lookupSlab, h]

/-! Alignment arithmetic: the address computations of allocate_new_slab and
the region mask of slab_free. -/

theorem ALIGN_UP_mod (x a : Nat) : ALIGN_UP x a % a = 0 := by
  simp [ALIGN_UP, Nat.mul_mod_left]

theorem le_ALIGN_UP {a : Nat} (x : Nat) (ha : 0 < a) : x ≤ ALIGN_UP x a := by
  unfold ALIGN_UP
  rw [Nat.mul_comm]
  have h1 := Nat.div_add_mod (x + (a - 1)) a
  have h2 : (x + (a - 1)) % a < a := Nat.mod_lt _ ha
  omega

theorem ALIGN_UP_le (x a : Nat) : ALIGN_UP x a ≤ x + (a - 1) := by
  unfold ALIGN_UP
  exact Nat.div_mul_le_self _ _

/-- Fit of the aligned region in the raw allocation (part_001 line 108,
total_size = alignment + alignment): rounding up wastes less than one
alignment unit, so the 65536-byte region starting at the aligned address
lies inside the malloc'd 131072 bytes. -/
theorem aligned_region_fits (raw : Nat) :
    ALIGN_UP raw (BLOCK_SIZE * BLOCK_COUNT) + BLOCK_SIZE * BLOCK_COUNT ≤
      raw + 2 * (BLOCK_SIZE * BLOCK_COUNT) := by
  have h := ALIGN_UP_le raw (BLOCK_SIZE * BLOCK_COUNT)
  simp only [BLOCK_SIZE, BLOCK_COUNT] at *
  omega

theorem maskRegion_base_add {a o : Nat} (ha : a % (BLOCK_SIZE * BLOCK_COUNT) = 0)
    (ho : o < BLOCK_SIZE * BLOCK_COUNT) : maskRegion (a + o) = a := by
  simp only [maskRegion, BLOCK_SIZE, BLOCK_COUNT] at *
  omega

theorem buildFreeList_length (a : Nat) : (buildFreeList a).length = EFFECTIVE_BLOCKS := by
  simp [buildFreeList]

theorem buildFreeList_mem {a b : Nat} (h : b ∈ buildFreeList a) :
    ∃ i, i < EFFECTIVE_BLOCKS ∧ b = a + SLAB_OVERHEAD * BLOCK_SIZE + i * BLOCK_SIZE := by
  simp only [buildFreeList, List.mem_map, List.mem_range] at h
  obtain ⟨i, hi, hb⟩ := h
  exact ⟨i, hi, hb.symm⟩

theorem maskRegion_buildFreeList {a b : Nat} (ha : a % (BLOCK_SIZE * BLOCK_COUNT) = 0)
    (hb : b ∈ buildFreeList a) : maskRegion b = a := by
  obtain ⟨i, hi, hb⟩ := buildFreeList_mem hb
  subst hb
  rw [Nat.add_assoc]
  refine maskRegion_base_add ha ?_
  simp only [SLAB_OVERHEAD, ALIGN_UP, sizeof_Slab, BLOCK_SIZE, BLOCK_COUNT,
    EFFECTIVE_BLOCKS] at *
  omega

/-! Lemmas about the refill loops. -/

theorem detachBatch_eq_take_drop :
    ∀ {n : Nat} {l : List Nat}, n ≤ l.length →
      detachBatch n l = some (l.take n, l.drop n) := by
  intro n
  induction n with
  | zero => intro l _; simp [detachBatch]
  | succ n ih =>
      intro l hl
      cases l with
      | nil => simp at hl
      | cons b rest =>
          simp only [List.length_cons, Nat.succ_le_succ_iff] at hl
          simp [detachBatch, ih hl]

theorem detachBatch_spec :
    ∀ {n : Nat} {l batch rem : List Nat}, detachBatch n l = some (batch, rem) →
      l = batch ++ rem ∧ batch.length = n := by
  intro n
  induction n with
  | zero => intro l batch rem h; simp [detachBatch] at h; simp [h.1.symm, h.2.symm]
  | succ n ih =>
      intro l batch rem h
      cases l with
      | nil => simp [detachBatch] at h
      | cons b rest =>
          simp only [detachBatch] at h
          cases hd : detachBatch n rest with
          | none => rw [hd] at h; simp at h
          | some p =>
              obtain ⟨batch', rem'⟩ := p
              rw [hd] at h
              simp at h
              obtain ⟨hb, hr⟩ := h
              obtain ⟨hl, hlen⟩ := ih hd
              subst hb; subst hr
              simp [hl, hlen]

theorem foldl_push_eq :
    ∀ (l acc : List Nat), l.foldl (fun fb b => b :: fb) acc = l.reverse ++ acc := by
  intro l
  induction l with
  | nil => intro acc; simp
  | cons b rest ih => intro acc; simp [List.foldl_cons, ih]

/-! Stability of PChain and GoodBlock under store writes. -/

theorem PChain_keys {st : List (Nat × Slab)} {p : Option Nat} {l : List Nat}
    (h : PChain st p l) : ∀ k ∈ l, k ∈ st.map Prod.fst := by
  induction h with
  | nil => simp
  | cons hlook _ _ _ ih =>
      intro k hk
      rcases List.mem_cons.1 hk with h' | h'
      · subst h'; exact lookupSlab_keys hlook
      · exact ih k h'

theorem PChain_update_not_mem {st : List (Nat × Slab)} {p : Option Nat}
    {l : List Nat} {k : Nat} {sl : Slab}
    (h : PChain st p l) (hk : k ∉ l) : PChain (updateSlab st k sl) p l := by
  induction h with
  | nil => exact PChain.nil
  | @cons k₀ sl₀ l₀ hlook hfc hnd _ ih =>
      have hne : k₀ ≠ k := fun he => hk (he ▸ List.mem_cons_self _ _)
      refine PChain.cons ?_ hfc hnd (ih fun hm => hk (List.mem_cons_of_mem _ hm))
      rw [lookupSlab_update_ne _ (Ne.symm hne).symm]
      exact hlook

theorem PChain_update_same_next {st : List (Nat × Slab)} {p : Option Nat}
    {l : List Nat} {k : Nat} {sl₀ sl : Slab}
    (hlook₀ : lookupSlab st k = some sl₀) (hnext : sl.next = sl₀.next)
    (hfc : 1 ≤ sl.free_count)
    (h : PChain st p l) : PChain (updateSlab st k sl) p l := by
  induction h with
  | nil => exact PChain.nil
  | @cons k₀ sl₁ l₀ hlook hfc' hnd hch ih =>
      by_cases hk : k₀ = k
      · subst hk
        rw [hlook₀] at hlook
        cases hlook
        refine PChain.cons (lookupSlab_update_self hlook₀ sl) hfc hnd ?_
        rw [hnext]
        exact ih
      · refine PChain.cons ?_ hfc' hnd ih
        rw [lookupSlab_update_ne _ hk]
        exact hlook

theorem PChain_cons_fresh {st : List (Nat × Slab)} {p : Option Nat}
    {l : List Nat} {k₀ : Nat} {sl₀ : Slab}
    (h : PChain st p l) (hk : k₀ ∉ st.map Prod.fst) :
    PChain ((k₀, sl₀) :: st) p l := by
  induction h with
  | nil => exact PChain.nil
  | @cons k sl l₀ hlook hfc hnd _ ih =>
      have hne : k₀ ≠ k := fun he => hk (he ▸ lookupSlab_keys hlook)
      exact PChain.cons (by rw [lookupSlab_cons_ne hne]; exact hlook) hfc hnd ih

theorem GoodBlock_update {st : List (Nat × Slab)} {k : Nat} {sl : Slab} {b : Nat}
    (hm : sl.mem = k) (h : GoodBlock st b) : GoodBlock (updateSlab st k sl) b := by
  unfold GoodBlock at *
  by_cases hk : maskRegion b = k
  · rw [hk] at h ⊢
    cases hl : lookupSlab st k with
    | none => rw [hl] at h; simp at h
    | some sl₁ => rw [lookupSlab_update_self hl sl]; simp [hm]
  · rw [lookupSlab_update_ne _ hk]
    exact h

theorem GoodBlock_cons {st : List (Nat × Slab)} {k₀ : Nat} {sl₀ : Slab} {b : Nat}
    (hm : sl₀.mem = k₀) (h : GoodBlock st b) : GoodBlock ((k₀, sl₀) :: st) b := by
  unfold GoodBlock at *
  by_cases hk : k₀ = maskRegion b
  · subst hk
    simp [lookupSlab, hm]
  · rw [lookupSlab_cons_ne hk]
    exact h

/-- Blocks sitting in a slab's free list satisfy ownership recovery. -/
theorem GoodBlock_of_freeList {s : AllocState} (hInv : Inv s) {k : Nat} {sl : Slab}
    (hlook : lookupSlab s.slabs k = some sl) {b : Nat} (hb : b ∈ sl.free_list) :
    GoodBlock s.slabs b := by
  have hmem := lookupSlab_mem hlook
  have hmask := hInv.flMask k sl hmem b hb
  have hmm := (hInv.wellKeyed k sl hmem).1
  unfold GoodBlock
  rw [hmask, hlook]
  simp [hmm]

/-! Invariant preservation, one lemma per branch of slab_alloc / slab_free. -/

/-- Tier 1 (part_001 lines 166-171): popping the fastbin head. -/
theorem inv_tier1 {s : AllocState} {blk : Nat} {rest : List Nat}
    (hInv : Inv s) (hfb : s.cache.fastbin = blk :: rest) :
    Inv { s with cache := { s.cache with fastbin := rest, fastbin_count := s.cache.fastbin_count - 1 } } ∧ GoodBlock s.slabs blk := by
  obtain ⟨hfl, hfc, hwk, hcnt, hflm, hfbg, hcur, hch, hknd, hsf, hsnd⟩ := hInv
  constructor
  · refine ⟨?_, ?_, hwk, hcnt, hflm, ?_, hcur, hch, hknd, hsf, hsnd⟩
    · show s.cache.fastbin_count - 1 = rest.length
      simp only [hfb, List.length_cons] at hfl
      omega
    · show s.cache.fastbin_count - 1 ≤ BLOCK_CACHE_LIMIT
      omega
    · intro b hb
      exact hfbg b (by rw [hfb]; exact List.mem_cons_of_mem _ hb)
  · exact hfbg blk (by rw [hfb]; exact List.mem_cons_self _ _)

/-- Tier 2, non-refill path (part_001 lines 202-210): popping the current
slab's free list head; the slab is dropped from current_slab exactly when
its free_count reaches zero. -/
theorem inv_tier2pop {s : AllocState} {k : Nat} {sl : Slab} {blk : Nat} {fl : List Nat}
    (hInv : Inv s) (hcur : s.cache.current_slab = some k)
    (hlook : lookupSlab s.slabs k = some sl)
    (hfl : sl.free_list = blk :: fl) :
    Inv { slabs := updateSlab s.slabs k { sl with free_list := fl, free_count := sl.free_count - 1 }
          cache := { s.cache with current_slab := if sl.free_count - 1 = 0 then none else some k }
          mallocs := s.mallocs } ∧
      GoodBlock (updateSlab s.slabs k { sl with free_list := fl, free_count := sl.free_count - 1 }) blk := by
  obtain ⟨hfbl, hfbc, hwk, hcnt, hflm, hfbg, hcur', hch, hknd, hsf, hsnd⟩ := hInv
  have hmem := lookupSlab_mem hlook
  have hmm := (hwk k sl hmem).1
  have hmod := (hwk k sl hmem).2
  have hmask : maskRegion blk = k := hflm k sl hmem blk (by rw [hfl]; exact List.mem_cons_self _ _)
  obtain ⟨l, hchain, hcurl⟩ := hch
  have hknotl : k ∉ l := hcurl k hcur
  have hgood : GoodBlock (updateSlab s.slabs k { sl with free_list := fl, free_count := sl.free_count - 1 }) blk := by
    unfold GoodBlock
    rw [hmask, lookupSlab_update_self hlook]
    simp [hmm]
  refine ⟨⟨hfbl, hfbc, ?_, ?_, ?_, ?_, ?_, ?_, ?_, ?_, ?_⟩, hgood⟩
  · intro k' sl' hm
    rcases updateSlab_mem_cases hm with ⟨hk, hsl⟩ | hm'
    · subst hk; subst hsl
      exact ⟨hmm, hmod⟩
    · exact hwk _ _ hm'
  · intro k' sl' hm
    rcases updateSlab_mem_cases hm with ⟨hk, hsl⟩ | hm'
    · subst hk; subst hsl
      have := hcnt _ _ hmem
      rw [hfl] at this
      simp at this ⊢
      omega
    · exact hcnt _ _ hm'
  · intro k' sl' hm b hb
    rcases updateSlab_mem_cases hm with ⟨hk, hsl⟩ | hm'
    · subst hk; subst hsl
      simp at hb
      exact hflm _ _ hmem b (by rw [hfl]; exact List.mem_cons_of_mem _ hb)
    · exact hflm _ _ hm' b hb
  · intro b hb
    simp at hb
    exact GoodBlock_update hmm (hfbg b hb)
  · intro k' hk'
    simp at hk'
    obtain ⟨hz, hkk⟩ := hk'
    cases hkk
    exact ⟨_, lookupSlab_update_self hlook _, by simp; omega⟩
  · refine ⟨l, PChain_update_not_mem hchain hknotl, ?_⟩
    intro k' hk'
    simp at hk'
    obtain ⟨hz, hkk⟩ := hk'
    cases hkk
    exact hknotl
  · rw [updateSlab_keys]
    exact hknd
  · intro a ha
    rw [updateSlab_keys]
    exact hsf a ha
  · exact hsnd

/-- Tier 2, batched refill (part_001 lines 179-199): detaching
BLOCK_CACHE_REFILL_LIMIT blocks from the current slab's free list into the
fastbin and popping the fastbin head. -/
theorem inv_refill {s : AllocState} {k : Nat} {sl : Slab}
    (hInv : Inv s) (hfb : s.cache.fastbin = [])
    (hcur : s.cache.current_slab = some k)
    (hlook : lookupSlab s.slabs k = some sl)
    (hgt : sl.free_count > BLOCK_CACHE_REFILL_LIMIT)
    {batch rem : List Nat}
    (hdet : detachBatch BLOCK_CACHE_REFILL_LIMIT sl.free_list = some (batch, rem))
    {blk : Nat} {fbrest : List Nat}
    (hfold : batch.foldl (fun fb b => b :: fb) s.cache.fastbin = blk :: fbrest) :
    Inv { slabs := updateSlab s.slabs k { sl with free_list := rem, free_count := sl.free_count - BLOCK_CACHE_REFILL_LIMIT }
          cache := { s.cache with fastbin := fbrest, fastbin_count := s.cache.fastbin_count + BLOCK_CACHE_REFILL_LIMIT - 1 }
          mallocs := s.mallocs } ∧
      GoodBlock (updateSlab s.slabs k { sl with free_list := rem, free_count := sl.free_count - BLOCK_CACHE_REFILL_LIMIT }) blk := by
  obtain ⟨hfbl, hfbc, hwk, hcnt, hflm, hfbg, hcur', hch, hknd, hsf, hsnd⟩ := hInv
  have hmem := lookupSlab_mem hlook
  have hmm := (hwk k sl hmem).1
  have hmod := (hwk k sl hmem).2
  obtain ⟨hsplit, hblen⟩ := detachBatch_spec hdet
  rw [foldl_push_eq, hfb, List.append_nil] at hfold
  have hcount0 : s.cache.fastbin_count = 0 := by rw [hfbl, hfb]; rfl
  have hrevlen : batch.reverse.length = BLOCK_CACHE_REFILL_LIMIT := by
    rw [List.length_reverse]; exact hblen
  have hbatchsub : ∀ b ∈ batch, b ∈ sl.free_list := by
    intro b hb; rw [hsplit]; exact List.mem_append_left _ hb
  have hgoodb : ∀ b ∈ batch,
      GoodBlock (updateSlab s.slabs k { sl with free_list := rem, free_count := sl.free_count - BLOCK_CACHE_REFILL_LIMIT }) b := by
    intro b hb
    have hmask : maskRegion b = k := hflm k sl hmem b (hbatchsub b hb)
    unfold GoodBlock
    rw [hmask, lookupSlab_update_self hlook]
    simp [hmm]
  obtain ⟨l, hchain, hcurl⟩ := hch
  have hknotl : k ∉ l := hcurl k hcur
  have hblkb : blk ∈ batch := by
    have : blk ∈ batch.reverse := by rw [hfold]; exact List.mem_cons_self _ _
    exact List.mem_reverse.1 this
  refine ⟨⟨?_, ?_, ?_, ?_, ?_, ?_, ?_, ?_, ?_, ?_, ?_⟩, hgoodb blk hblkb⟩
  · show s.cache.fastbin_count + BLOCK_CACHE_REFILL_LIMIT - 1 = fbrest.length
    have : (blk :: fbrest).length = BLOCK_CACHE_REFILL_LIMIT := by rw [← hfold]; exact hrevlen
    simp at this
    omega
  · show s.cache.fastbin_count + BLOCK_CACHE_REFILL_LIMIT - 1 ≤ BLOCK_CACHE_LIMIT
    rw [hcount0]
    simp [BLOCK_CACHE_REFILL_LIMIT, BLOCK_CACHE_LIMIT]
  · intro k' sl' hm
    rcases updateSlab_mem_cases hm with ⟨hk, hsl⟩ | hm'
    · subst hk; subst hsl
      exact ⟨hmm, hmod⟩
    · exact hwk _ _ hm'
  · intro k' sl' hm
    rcases updateSlab_mem_cases hm with ⟨hk, hsl⟩ | hm'
    · subst hk; subst hsl
      have := hcnt _ _ hmem
      rw [hsplit] at this
      simp [List.length_append, hblen] at this
      simp
      omega
    · exact hcnt _ _ hm'
  · intro k' sl' hm b hb
    rcases updateSlab_mem_cases hm with ⟨hk, hsl⟩ | hm'
    · subst hk; subst hsl
      simp at hb
      exact hflm _ _ hmem b (by rw [hsplit]; exact List.mem_append_right _ hb)
    · exact hflm _ _ hm' b hb
  · intro b hb
    simp at hb
    have : b ∈ batch.reverse := by rw [hfold]; exact List.mem_cons_of_mem _ hb
    exact hgoodb b (List.mem_reverse.1 this)
  · intro k' hk'
    simp at hk'
    rw [hcur] at hk'
    cases hk'
    exact ⟨_, lookupSlab_update_self hlook _, by simp; omega⟩
  · refine ⟨l, PChain_update_not_mem hchain hknotl, ?_⟩
    intro k' hk'
    simp at hk'
    rw [hcur] at hk'
    cases hk'
    exact hknotl
  · rw [updateSlab_keys]
    exact hknd
  · intro a ha
    rw [updateSlab_keys]
    exact hsf a ha
  · exact hsnd

/-- Tier 3 (part_001 lines 213-221): popping the head of partial_slabs and
installing it as the current slab preserves the invariant; the installed
slab has at least one free block and the fastbin is untouched. -/
theorem inv_install {s : AllocState} {pk : Nat} {psl : Slab}
    (hInv : Inv s) (hpk : s.cache.partial_slabs = some pk)
    (hlook : lookupSlab s.slabs pk = some psl) :
    Inv { s with cache := { s.cache with partial_slabs := psl.next, current_slab := some pk } } ∧ 1 ≤ psl.free_count := by
  obtain ⟨hfl, hfc, hwk, hcnt, hflm, hfbg, hcur, hch, hknd, hsf, hsnd⟩ := hInv
  obtain ⟨l, hchain, hcurl⟩ := hch
  rw [hpk] at hchain
  cases hchain with
  | cons hlook' hfc' hnd hch' =>
      rename_i sl' l₀
      rw [hlook] at hlook'
      cases hlook'
      constructor
      · refine ⟨hfl, hfc, hwk, hcnt, hflm, hfbg, ?_, ?_, hknd, hsf, hsnd⟩
        · intro k hk
          simp only at hk
          cases hk
          exact ⟨psl, hlook, hfc'⟩
        · exact ⟨l₀, hch', by intro k hk; simp only at hk; cases hk; exact hnd⟩
      · exact hfc'

theorem scriptAligned_cons_none (rest : List (Option Nat)) :
    scriptAligned (none :: rest) = scriptAligned rest := by
  simp [scriptAligned]

theorem scriptAligned_cons_some (raw : Nat) (rest : List (Option Nat)) :
    scriptAligned (some raw :: rest) =
      ALIGN_UP raw (BLOCK_SIZE * BLOCK_COUNT) :: scriptAligned rest := by
  simp [scriptAligned]

theorem PChain_mem_lookup {st : List (Nat × Slab)} {p : Option Nat} {l : List Nat}
    (h : PChain st p l) {k : Nat} (hk : k ∈ l) :
    ∃ sl, lookupSlab st k = some sl ∧ 1 ≤ sl.free_count := by
  induction h with
  | nil => simp at hk
  | @cons k₀ sl₀ l₀ hlook hfc _ _ ih =>
      rcases List.mem_cons.1 hk with h' | h'
      · subst h'; exact ⟨sl₀, hlook, hfc⟩
      · exact ih h'

/-- Tier 4 failure (part_001 lines 110-112 and 223-225): a refused malloc
consumes the script entry and changes nothing else, so the invariant holds
in the state slab_alloc reports OutOfMemory from. -/
theorem inv_malloc_fail {s : AllocState} {rest : List (Option Nat)}
    (hInv : Inv s) (hm : s.mallocs = none :: rest) :
    Inv { s with mallocs := rest } := by
  obtain ⟨hfbl, hfbc, hwk, hcnt, hflm, hfbg, hcur, hch, hknd, hsf, hsnd⟩ := hInv
  rw [hm, scriptAligned_cons_none] at hsf hsnd
  exact ⟨hfbl, hfbc, hwk, hcnt, hflm, hfbg, hcur, hch, hknd, hsf, hsnd⟩

/-- Tier 4 success (part_001 lines 106-153): constructing a fresh slab at
the aligned base of a fresh raw allocation preserves the invariant; the new
current slab has EFFECTIVE_BLOCKS free blocks. -/
theorem inv_new_slab {s : AllocState} {raw : Nat} {rest : List (Option Nat)}
    (hInv : Inv s) (hm : s.mallocs = some raw :: rest) :
    Inv { slabs := (ALIGN_UP raw (BLOCK_SIZE * BLOCK_COUNT), { mem := ALIGN_UP raw (BLOCK_SIZE * BLOCK_COUNT), raw_allocation := raw, free_count := EFFECTIVE_BLOCKS, free_list := buildFreeList (ALIGN_UP raw (BLOCK_SIZE * BLOCK_COUNT)), next := s.cache.current_slab }) :: s.slabs
          cache := { s.cache with current_slab := some (ALIGN_UP raw (BLOCK_SIZE * BLOCK_COUNT)) }
          mallocs := rest } := by
  obtain ⟨hfbl, hfbc, hwk, hcnt, hflm, hfbg, hcur, hch, hknd, hsf, hsnd⟩ := hInv
  rw [hm, scriptAligned_cons_some] at hsf hsnd
  have hfreshk : ALIGN_UP raw (BLOCK_SIZE * BLOCK_COUNT) ∉ s.slabs.map Prod.fst :=
    hsf _ (List.mem_cons_self _ _)
  have hmod : ALIGN_UP raw (BLOCK_SIZE * BLOCK_COUNT) % (BLOCK_SIZE * BLOCK_COUNT) = 0 :=
    ALIGN_UP_mod _ _
  obtain ⟨l, hchain, hcurl⟩ := hch
  have hlsub := PChain_keys hchain
  refine ⟨hfbl, hfbc, ?_, ?_, ?_, ?_, ?_, ?_, ?_, ?_, ?_⟩
  · intro k' sl' hmem
    rcases List.mem_cons.1 hmem with h' | h'
    · cases h'
      exact ⟨rfl, hmod⟩
    · exact hwk _ _ h'
  · intro k' sl' hmem
    rcases List.mem_cons.1 hmem with h' | h'
    · cases h'
      exact (buildFreeList_length _).symm
    · exact hcnt _ _ h'
  · intro k' sl' hmem b hb
    rcases List.mem_cons.1 hmem with h' | h'
    · cases h'
      exact maskRegion_buildFreeList hmod hb
    · exact hflm _ _ h' b hb
  · intro b hb
    exact GoodBlock_cons rfl (hfbg b hb)
  · intro k' hk'
    simp only at hk'
    cases hk'
    refine ⟨{ mem := ALIGN_UP raw (BLOCK_SIZE * BLOCK_COUNT), raw_allocation := raw, free_count := EFFECTIVE_BLOCKS, free_list := buildFreeList (ALIGN_UP raw (BLOCK_SIZE * BLOCK_COUNT)), next := s.cache.current_slab }, ?_, ?_⟩
    · simp [lookupSlab]
    · show 1 ≤ EFFECTIVE_BLOCKS
      decide
  · refine ⟨l, PChain_cons_fresh hchain hfreshk, ?_⟩
    intro k' hk'
    simp only at hk'
    cases hk'
    intro hmem
    exact hfreshk (hlsub _ hmem)
  · refine List.nodup_cons.2 ⟨hfreshk, hknd⟩
  · intro a ha
    have hand := List.nodup_cons.1 hsnd
    have hane : a ≠ ALIGN_UP raw (BLOCK_SIZE * BLOCK_COUNT) := by
      intro he
      exact hand.1 (he ▸ ha)
    simp only [List.map_cons, List.mem_cons]
    push_neg
    exact ⟨hane, hsf a (List.mem_cons_of_mem _ ha)⟩
  · exact (List.nodup_cons.1 hsnd).2

/-- Fast path of slab_free (part_001 lines 242-248): pushing a freed block
onto an unsaturated fastbin preserves the invariant. -/
theorem inv_free_fast {s : AllocState} {b : Nat}
    (hInv : Inv s) (hb : GoodBlock s.slabs b)
    (hlt : s.cache.fastbin_count < BLOCK_CACHE_LIMIT) :
    Inv { s with cache := { s.cache with fastbin := b :: s.cache.fastbin, fastbin_count := s.cache.fastbin_count + 1 } } := by
  obtain ⟨hfbl, hfbc, hwk, hcnt, hflm, hfbg, hcur, hch, hknd, hsf, hsnd⟩ := hInv
  refine ⟨?_, ?_, hwk, hcnt, hflm, ?_, hcur, hch, hknd, hsf, hsnd⟩
  · show s.cache.fastbin_count + 1 = (b :: s.cache.fastbin).length
    simp [hfbl]
  · show s.cache.fastbin_count + 1 ≤ BLOCK_CACHE_LIMIT
    omega
  · intro b' hb'
    rcases List.mem_cons.1 hb' with h' | h'
    · subst h'; exact hb
    · exact hfbg b' h'

/-- Slow path of slab_free, push case (part_001 lines 250-263, with the
full-to-partial transition): the owning slab gains the block and is linked
at the head of partial_slabs. -/
theorem inv_free_slow_push {s : AllocState} {b : Nat} {parent : Slab}
    (hInv : Inv s)
    (hlook : lookupSlab s.slabs (maskRegion b) = some parent)
    (hmm : parent.mem = maskRegion b)
    (hfc0 : parent.free_count + 1 = 1)
    (hne : s.cache.current_slab ≠ some (maskRegion b)) :
    Inv { slabs := updateSlab s.slabs (maskRegion b) { parent with free_list := b :: parent.free_list, free_count := parent.free_count + 1, next := s.cache.partial_slabs }
          cache := { s.cache with partial_slabs := some (maskRegion b) }
          mallocs := s.mallocs } := by
  obtain ⟨hfbl, hfbc, hwk, hcnt, hflm, hfbg, hcur, hch, hknd, hsf, hsnd⟩ := hInv
  have hmem := lookupSlab_mem hlook
  have hmod := (hwk _ _ hmem).2
  obtain ⟨l, hchain, hcurl⟩ := hch
  have hpnotl : maskRegion b ∉ l := by
    intro hin
    obtain ⟨sl', hlook', hfc'⟩ := PChain_mem_lookup hchain hin
    rw [hlook] at hlook'
    cases hlook'
    omega
  refine ⟨hfbl, hfbc, ?_, ?_, ?_, ?_, ?_, ?_, ?_, ?_, ?_⟩
  · intro k' sl' hm
    rcases updateSlab_mem_cases hm with ⟨hk, hsl⟩ | hm'
    · subst hk; subst hsl
      exact ⟨hmm, hmod⟩
    · exact hwk _ _ hm'
  · intro k' sl' hm
    rcases updateSlab_mem_cases hm with ⟨hk, hsl⟩ | hm'
    · subst hk; subst hsl
      have := hcnt _ _ hmem
      simp [this]
    · exact hcnt _ _ hm'
  · intro k' sl' hm b' hb'
    rcases updateSlab_mem_cases hm with ⟨hk, hsl⟩ | hm'
    · subst hk; subst hsl
      simp at hb'
      rcases hb' with h' | h'
      · subst h'; rfl
      · exact hflm _ _ hmem b' h'
    · exact hflm _ _ hm' b' hb'
  · intro b' hb'
    exact GoodBlock_update hmm (hfbg b' hb')
  · intro k' hk'
    simp only at hk'
    obtain ⟨sl', hlook', hfc'⟩ := hcur k' hk'
    have hne' : k' ≠ maskRegion b := by
      intro he
      exact hne (he ▸ hk')
    refine ⟨sl', ?_, hfc'⟩
    rw [lookupSlab_update_ne _ hne']
    exact hlook'
  · refine ⟨maskRegion b :: l, ?_, ?_⟩
    · refine PChain.cons (lookupSlab_update_self hlook _) (by simp) hpnotl ?_
      show PChain _ s.cache.partial_slabs l
      exact PChain_update_not_mem hchain hpnotl
    · intro k' hk'
      have hne' : k' ≠ maskRegion b := by
        intro he
        exact hne (he ▸ hk')
      simp only [List.mem_cons]
      push_neg
      exact ⟨hne', hcurl k' hk'⟩
  · rw [updateSlab_keys]; exact hknd
  · intro a ha
    rw [updateSlab_keys]; exact hsf a ha
  · exact hsnd

/-- Slow path of slab_free, no-push case (part_001 lines 250-257 when the
transition guard fails): the owning slab gains the block; no list changes. -/
theorem inv_free_slow_nopush {s : AllocState} {b : Nat} {parent : Slab}
    (hInv : Inv s)
    (hlook : lookupSlab s.slabs (maskRegion b) = some parent)
    (hmm : parent.mem = maskRegion b) :
    Inv { s with slabs := updateSlab s.slabs (maskRegion b) { parent with free_list := b :: parent.free_list, free_count := parent.free_count + 1 } } := by
  obtain ⟨hfbl, hfbc, hwk, hcnt, hflm, hfbg, hcur, hch, hknd, hsf, hsnd⟩ := hInv
  have hmem := lookupSlab_mem hlook
  have hmod := (hwk _ _ hmem).2
  obtain ⟨l, hchain, hcurl⟩ := hch
  refine ⟨hfbl, hfbc, ?_, ?_, ?_, ?_, ?_, ?_, ?_, ?_, ?_⟩
  · intro k' sl' hm
    rcases updateSlab_mem_cases hm with ⟨hk, hsl⟩ | hm'
    · subst hk; subst hsl
      exact ⟨hmm, hmod⟩
    · exact hwk _ _ hm'
  · intro k' sl' hm
    rcases updateSlab_mem_cases hm with ⟨hk, hsl⟩ | hm'
    · subst hk; subst hsl
      have := hcnt _ _ hmem
      simp [this]
    · exact hcnt _ _ hm'
  · intro k' sl' hm b' hb'
    rcases updateSlab_mem_cases hm with ⟨hk, hsl⟩ | hm'
    · subst hk; subst hsl
      simp at hb'
      rcases hb' with h' | h'
      · subst h'; rfl
      · exact hflm _ _ hmem b' h'
    · exact hflm _ _ hm' b' hb'
  · intro b' hb'
    exact GoodBlock_update hmm (hfbg b' hb')
  · intro k' hk'
    simp only at hk'
    obtain ⟨sl', hlook', hfc'⟩ := hcur k' hk'
    by_cases hke : k' = maskRegion b
    · subst hke
      rw [hlook] at hlook'
      cases hlook'
      exact ⟨_, lookupSlab_update_self hlook _, by simp⟩
    · refine ⟨sl', ?_, hfc'⟩
      rw [lookupSlab_update_ne _ hke]
      exact hlook'
  · refine ⟨l, ?_, hcurl⟩
    exact PChain_update_same_next hlook rfl (by simp) hchain
  · rw [updateSlab_keys]; exact hknd
  · intro a ha
    rw [updateSlab_keys]; exact hsf a ha
  · exact hsnd

/-- Soundness of one slab_alloc activation, parametrised by the behaviour
of the tail call: under the invariant the activation never gets stuck, and
every block it returns satisfies ownership recovery in a state that again
satisfies the invariant. -/
def RecSound (recurse : AllocState → AResult) : Prop :=
  ∀ s, Inv s →
    (recurse s ≠ .stuck) ∧
    (∀ b s', recurse s = .ok b s' → Inv s' ∧ GoodBlock s'.slabs b) ∧
    (∀ s', recurse s = .oom s' → Inv s')

theorem tiers34_sound {recurse : AllocState → AResult} (hrec : RecSound recurse)
    (s : AllocState) (hInv : Inv s) :
    (slab_alloc_tiers34 recurse s ≠ .stuck) ∧
    (∀ b s', slab_alloc_tiers34 recurse s = .ok b s' → Inv s' ∧ GoodBlock s'.slabs b) ∧
    (∀ s', slab_alloc_tiers34 recurse s = .oom s' → Inv s') := by
  unfold slab_alloc_tiers34
  cases hpk : s.cache.partial_slabs with
  | some pk =>
      cases hlk : lookupSlab s.slabs pk with
      | none =>
          exfalso
          obtain ⟨l, hchain, _⟩ := hInv.chain
          rw [hpk] at hchain
          cases hchain with
          | cons hlook _ _ _ => rw [hlk] at hlook; cases hlook
      | some psl =>
          simp only [hlk]
          obtain ⟨hInv₁, _⟩ := inv_install hInv hpk hlk
          exact hrec _ hInv₁
  | none =>
      cases hm : s.mallocs with
      | nil =>
          simp only [allocate_new_slab, hm]
          refine ⟨by simp, ?_, ?_⟩
          · intro b s' h; simp at h
          · intro s' h
            simp at h
            subst h
            exact hInv
      | cons r rest =>
          cases r with
          | none =>
              simp only [allocate_new_slab, hm]
              refine ⟨by simp, ?_, ?_⟩
              · intro b s' h; simp at h
              · intro s' h
                simp at h
                subst h
                exact inv_malloc_fail hInv hm
          | some raw =>
              simp only [allocate_new_slab, hm]
              exact hrec _ (inv_new_slab hInv hm)

theorem body_sound {recurse : AllocState → AResult} (hrec : RecSound recurse)
    (s : AllocState) (hInv : Inv s) :
    (slab_alloc_body recurse s ≠ .stuck) ∧
    (∀ b s', slab_alloc_body recurse s = .ok b s' → Inv s' ∧ GoodBlock s'.slabs b) ∧
    (∀ s', slab_alloc_body recurse s = .oom s' → Inv s') := by
  unfold slab_alloc_body
  cases hfb : s.cache.fastbin with
  | cons blk rest =>
      simp only [hfb]
      obtain ⟨hInv₁, hgood⟩ := inv_tier1 hInv hfb
      refine ⟨by simp, ?_, ?_⟩
      · intro b s' h
        simp at h
        obtain ⟨hb, hs⟩ := h
        subst hb; subst hs
        exact ⟨hInv₁, hgood⟩
      · intro s' h; simp at h
  | nil =>
      simp only [hfb]
      cases hcur : s.cache.current_slab with
      | some k =>
          simp only [hcur]
          cases hlk : lookupSlab s.slabs k with
          | none =>
              exfalso
              obtain ⟨sl', hlook', _⟩ := hInv.curIn k hcur
              rw [hlk] at hlook'
              cases hlook'
          | some sl =>
              obtain ⟨sl', hlook', hfcpos⟩ := hInv.curIn k hcur
              rw [hlk] at hlook'
              cases hlook'
              have hfc0 : sl.free_count ≠ 0 := by omega
              simp only [hlk]
              rw [if_pos hfc0]
              by_cases hgt : sl.free_count > BLOCK_CACHE_REFILL_LIMIT
              · rw [if_pos hgt]
                have hlen : sl.free_count = sl.free_list.length :=
                  hInv.counts k sl (lookupSlab_mem hlk)
                have hdet : detachBatch BLOCK_CACHE_REFILL_LIMIT sl.free_list =
                    some (sl.free_list.take BLOCK_CACHE_REFILL_LIMIT,
                      sl.free_list.drop BLOCK_CACHE_REFILL_LIMIT) :=
                  detachBatch_eq_take_drop (by omega)
                rw [hdet]
                cases hfold : (sl.free_list.take BLOCK_CACHE_REFILL_LIMIT).foldl
                    (fun fb b => b :: fb) ([] : List Nat) with
                | nil =>
                    exfalso
                    have hlen : sl.free_count = sl.free_list.length :=
                      hInv.counts k sl (lookupSlab_mem hlk)
                    have h0 := congrArg List.length hfold
                    rw [foldl_push_eq, List.append_nil, List.length_reverse,
                      List.length_take] at h0
                    have hc : BLOCK_CACHE_REFILL_LIMIT = 32 := rfl
                    rw [List.length_nil] at h0
                    omega
                | cons blk fbrest =>
                    simp only [hfold]
                    have hfold' : (sl.free_list.take BLOCK_CACHE_REFILL_LIMIT).foldl
                        (fun fb b => b :: fb) s.cache.fastbin = blk :: fbrest := by
                      rw [hfb]
                      exact hfold
                    obtain ⟨hInv₁, hgood⟩ := inv_refill hInv hfb hcur hlk hgt hdet hfold'
                    simp only [hcur, hfb] at hInv₁ hgood
                    refine ⟨by simp, ?_, ?_⟩
                    · intro b s' h
                      simp at h
                      obtain ⟨hb, hs⟩ := h
                      subst hb; subst hs
                      exact ⟨hInv₁, hgood⟩
                    · intro s' h; simp at h
              · rw [if_neg hgt]
                cases hfl : sl.free_list with
                | nil =>
                    exfalso
                    have hlen : sl.free_count = sl.free_list.length :=
                      hInv.counts k sl (lookupSlab_mem hlk)
                    rw [hfl] at hlen
                    simp at hlen
                    omega
                | cons blk fl =>
                    simp only [hfl]
                    obtain ⟨hInv₁, hgood⟩ := inv_tier2pop hInv hcur hlk hfl
                    simp only [hcur, hfb] at hInv₁ hgood
                    refine ⟨by simp, ?_, ?_⟩
                    · intro b s' h
                      simp at h
                      obtain ⟨hb, hs⟩ := h
                      subst hb; subst hs
                      exact ⟨hInv₁, hgood⟩
                    · intro s' h; simp at h
      | none =>
          simp only [hcur]
          exact tiers34_sound hrec s hInv

/-- Soundness of slab_free: under the invariant, freeing a block that
satisfies ownership recovery succeeds and preserves the invariant. -/
theorem free_sound {s : AllocState} {b : Nat} (hInv : Inv s) (hb : GoodBlock s.slabs b) :
    ∃ s', slab_free s b = some s' ∧ Inv s' := by
  unfold slab_free
  by_cases hlt : s.cache.fastbin_count < BLOCK_CACHE_LIMIT
  · rw [if_pos hlt]
    exact ⟨_, rfl, inv_free_fast hInv hb hlt⟩
  · rw [if_neg hlt]
    unfold GoodBlock at hb
    cases hpar : lookupSlab s.slabs (maskRegion b) with
    | none => rw [hpar] at hb; simp at hb
    | some parent =>
        rw [hpar] at hb
        simp at hb
        simp only [hpar]
        split
        next hcond =>
          exact ⟨_, rfl, inv_free_slow_push hInv hpar hb hcond.1 hcond.2⟩
        next hcond =>
          exact ⟨_, rfl, inv_free_slow_nopush hInv hpar hb⟩

/-- Soundness of slab_alloc at every fuel: under the single-thread
invariant it never gets stuck, every returned block satisfies ownership
recovery, and the invariant is preserved by success and by OutOfMemory. -/
theorem alloc_sound : ∀ (f : Nat), RecSound (slab_alloc f) := by
  intro f
  induction f with
  | zero =>
      intro s hInv
      refine ⟨by simp [slab_alloc], ?_, ?_⟩
      · intro b s' h; simp [slab_alloc] at h
      · intro s' h; simp [slab_alloc] at h
  | succ f ih =>
      intro s hInv
      exact body_sound ih s hInv

/-- Invariant of a fresh thread cache with a mutually fresh script. -/
theorem init_inv (script : List (Option Nat)) (hnd : (scriptAligned script).Nodup) :
    Inv (initState script) := by
  refine ⟨rfl, Nat.zero_le _, ?_, ?_, ?_, ?_, ?_, ?_, ?_, ?_, hnd⟩
  · intro k sl h; simp [initState] at h
  · intro k sl h; simp [initState] at h
  · intro k sl h; simp [initState] at h
  · intro b hb; simp [initState, freshCache] at hb
  · intro k hk; simp [initState, freshCache] at hk
  · exact ⟨[], PChain.nil, by intro k hk; simp [initState, freshCache] at hk⟩
  · simp [initState]
  · intro a _; simp [initState]

/-- Every reachable state satisfies the single-thread invariant. -/
theorem reach_inv {s : AllocState} (h : Reachable s) : Inv s := by
  induction h with
  | init script hnd => exact init_inv script hnd
  | alloc _ hok ih => exact (((alloc_sound _) _ ih).2.1 _ _ hok).1
  | allocOOM _ hoom ih => exact ((alloc_sound _) _ ih).2.2 _ hoom
  | free _ hgb hfr ih =>
      obtain ⟨s', he, hi⟩ := free_sound ih hgb
      rw [hfr] at he
      cases he
      exact hi

/-- A state that slab_alloc serves without its tail call: a non-empty
fastbin, or a usable current slab whose bookkeeping is consistent. -/
def ServesNow (s : AllocState) : Prop :=
  s.cache.fastbin ≠ [] ∨
    (∃ k sl, s.cache.current_slab = some k ∧ lookupSlab s.slabs k = some sl ∧
      sl.free_count ≠ 0 ∧ sl.free_count = sl.free_list.length)

/-- On a state it serves directly, one slab_alloc activation neither uses
its tail call nor runs out of fuel: the result is the same for every
recursion bound. -/
theorem body_serves {s : AllocState} (h : ServesNow s)
    (r r' : AllocState → AResult) :
    slab_alloc_body r s = slab_alloc_body r' s ∧
      ∃ b s', slab_alloc_body r s = .ok b s' := by
  unfold slab_alloc_body
  cases hfb : s.cache.fastbin with
  | cons blk rest =>
      refine ⟨by simp only [hfb], ?_⟩
      simp only [hfb]
      exact ⟨_, _, rfl⟩
  | nil =>
      simp only [hfb]
      rcases h with h | ⟨k, sl, hcur, hlk, hfc0, hlen⟩
      · exact absurd hfb h
      · simp only [hcur, hlk]
        rw [if_pos hfc0, if_pos hfc0]
        refine ⟨rfl, ?_⟩
        by_cases hgt : sl.free_count > BLOCK_CACHE_REFILL_LIMIT
        · rw [if_pos hgt]
          have hdet : detachBatch BLOCK_CACHE_REFILL_LIMIT sl.free_list =
              some (sl.free_list.take BLOCK_CACHE_REFILL_LIMIT,
                sl.free_list.drop BLOCK_CACHE_REFILL_LIMIT) :=
            detachBatch_eq_take_drop (by omega)
          rw [hdet]
          cases hfold : (sl.free_list.take BLOCK_CACHE_REFILL_LIMIT).foldl
              (fun fb b => b :: fb) ([] : List Nat) with
          | nil =>
              exfalso
              have h0 := congrArg List.length hfold
              rw [foldl_push_eq, List.append_nil, List.length_reverse,
                List.length_take] at h0
              have hc : BLOCK_CACHE_REFILL_LIMIT = 32 := rfl
              rw [List.length_nil] at h0
              omega
          | cons blk fbrest =>
              simp only [hfold]
              exact ⟨_, _, rfl⟩
        · rw [if_neg hgt]
          cases hfl : sl.free_list with
          | nil => exfalso; rw [hfl] at hlen; simp at hlen; omega
          | cons blk fl =>
              simp only [hfl]
              exact ⟨_, _, rfl⟩

/-- Tier structure of one slab_alloc activation under the invariant: it is
served directly, or it delegates exactly once to a state that will be
served directly, or it reports OutOfMemory.  This is the shape behind the
recursion-depth bound of claim C10. -/
theorem body_tiers (s : AllocState) (hInv : Inv s) :
    ServesNow s ∨
    ((∃ s₁, (∀ r, slab_alloc_body r s = r s₁) ∧ Inv s₁ ∧ ServesNow s₁) ∧
      ¬(s.cache.partial_slabs = none ∧ mallocHead s.mallocs = none)) ∨
    ((∃ s', ∀ r, slab_alloc_body r s = .oom s') ∧
      s.cache.fastbin = [] ∧ s.cache.current_slab = none ∧
      s.cache.partial_slabs = none ∧ mallocHead s.mallocs = none) := by
  cases hfb : s.cache.fastbin with
  | cons blk rest => exact Or.inl (Or.inl (by rw [hfb]; simp))
  | nil =>
      cases hcur : s.cache.current_slab with
      | some k =>
          obtain ⟨sl, hlk, hfcpos⟩ := hInv.curIn k hcur
          refine Or.inl (Or.inr ⟨k, sl, hcur, hlk, by omega, ?_⟩)
          exact hInv.counts k sl (lookupSlab_mem hlk)
      | none =>
          cases hpk : s.cache.partial_slabs with
          | some pk =>
              obtain ⟨l, hchain, _⟩ := hInv.chain
              rw [hpk] at hchain
              cases hchain with
              | @cons _ psl l₀ hlk hfcpos hnd hch =>
                  refine Or.inr (Or.inl ⟨⟨{ s with cache := { s.cache with partial_slabs := psl.next, current_slab := some pk } }, ?_, ?_, ?_⟩, by simp [hpk]⟩)
                  · intro r
                    unfold slab_alloc_body slab_alloc_tiers34
                    simp only [hfb, hcur, hpk, hlk]
                  · exact (inv_install hInv hpk hlk).1
                  · refine Or.inr ⟨pk, psl, rfl, hlk, by omega, ?_⟩
                    exact hInv.counts pk psl (lookupSlab_mem hlk)
          | none =>
              cases hm : s.mallocs with
              | nil =>
                  refine Or.inr (Or.inr ⟨⟨s, ?_⟩, rfl, rfl, rfl, by simp [hm, mallocHead]⟩)
                  intro r
                  unfold slab_alloc_body slab_alloc_tiers34
                  simp only [hfb, hcur, hpk, allocate_new_slab, hm]
              | cons ro rest =>
                  cases ro with
                  | none =>
                      refine Or.inr (Or.inr ⟨⟨{ s with mallocs := rest }, ?_⟩, rfl, rfl, rfl, by simp [hm, mallocHead]⟩)
                      intro r
                      unfold slab_alloc_body slab_alloc_tiers34
                      simp only [hfb, hcur, hpk, allocate_new_slab, hm]
                  | some raw =>
                      refine Or.inr (Or.inl ⟨⟨{ slabs := (ALIGN_UP raw (BLOCK_SIZE * BLOCK_COUNT), { mem := ALIGN_UP raw (BLOCK_SIZE * BLOCK_COUNT), raw_allocation := raw, free_count := EFFECTIVE_BLOCKS, free_list := buildFreeList (ALIGN_UP raw (BLOCK_SIZE * BLOCK_COUNT)), next := s.cache.current_slab }) :: s.slabs, cache := { s.cache with current_slab := some (ALIGN_UP raw (BLOCK_SIZE * BLOCK_COUNT)) }, mallocs := rest }, ?_, inv_new_slab hInv hm, ?_⟩, by simp [hm, mallocHead]⟩)
                      · intro r
                        unfold slab_alloc_body slab_alloc_tiers34
                        simp only [hfb, hcur, hpk, allocate_new_slab, hm]
                      · refine Or.inr ⟨ALIGN_UP raw (BLOCK_SIZE * BLOCK_COUNT),
                          { mem := ALIGN_UP raw (BLOCK_SIZE * BLOCK_COUNT), raw_allocation := raw, free_count := EFFECTIVE_BLOCKS, free_list := buildFreeList (ALIGN_UP raw (BLOCK_SIZE * BLOCK_COUNT)), next := s.cache.current_slab }, rfl, ?_, ?_, ?_⟩
                        · simp [lookupSlab]
                        · show EFFECTIVE_BLOCKS ≠ 0
                          decide
                        · show EFFECTIVE_BLOCKS = (buildFreeList (ALIGN_UP raw (BLOCK_SIZE * BLOCK_COUNT))).length
                          exact (buildFreeList_length _).symm

theorem slab_alloc_succ (n : Nat) (s : AllocState) :
    slab_alloc (n + 1) s = slab_alloc_body (slab_alloc n) s := rfl

/-- Recursion-depth bound: with the invariant, fuel 2 (the first activation
plus at most one tail call) never runs out, and more fuel never changes the
result — the C function terminates with recursion depth at most 2. -/
theorem alloc_fuel_two {s : AllocState} (hInv : Inv s) :
    slab_alloc 2 s ≠ .fuel ∧ ∀ f : Nat, slab_alloc (f + 2) s = slab_alloc 2 s := by
  have h2 : slab_alloc 2 s = slab_alloc_body (slab_alloc 1) s := rfl
  rcases body_tiers s hInv with hserve | ⟨⟨s₁, hdel, hInv₁, hs₁⟩, _⟩ | ⟨⟨s', hoom⟩, _⟩
  · constructor
    · rw [h2]
      obtain ⟨b, s', hok⟩ := (body_serves hserve (slab_alloc 1) (slab_alloc 1)).2
      rw [hok]
      simp
    · intro f
      have hf2 : slab_alloc (f + 2) s = slab_alloc_body (slab_alloc (f + 1)) s := rfl
      rw [hf2, h2]
      exact (body_serves hserve (slab_alloc (f + 1)) (slab_alloc 1)).1
  · have h1 : slab_alloc 1 s₁ = slab_alloc_body (slab_alloc 0) s₁ := rfl
    constructor
    · rw [h2, hdel (slab_alloc 1), h1]
      obtain ⟨b, s', hok⟩ := (body_serves hs₁ (slab_alloc 0) (slab_alloc 0)).2
      rw [hok]
      simp
    · intro f
      have hf2 : slab_alloc (f + 2) s = slab_alloc_body (slab_alloc (f + 1)) s := rfl
      have hf1 : slab_alloc (f + 1) s₁ = slab_alloc_body (slab_alloc f) s₁ := rfl
      rw [hf2, h2, hdel (slab_alloc (f + 1)), hdel (slab_alloc 1), hf1, h1]
      exact (body_serves hs₁ (slab_alloc f) (slab_alloc 0)).1
  · constructor
    · rw [h2, hoom (slab_alloc 1)]
      simp
    · intro f
      have hf2 : slab_alloc (f + 2) s = slab_alloc_body (slab_alloc (f + 1)) s := rfl
      rw [hf2, h2, hoom (slab_alloc (f + 1)), hoom (slab_alloc 1)]

/-- OutOfMemory characterisation: under the invariant, one slab_alloc call
reports OutOfMemory exactly when every tier is exhausted — empty fastbin,
no current slab, no partial slab and a refused system allocation; in every
other case it returns a block. -/
theorem alloc_oom_char {s : AllocState} (hInv : Inv s) :
    ((∃ s', slab_alloc 2 s = .oom s') ↔
      (s.cache.fastbin = [] ∧ s.cache.current_slab = none ∧
       s.cache.partial_slabs = none ∧ mallocHead s.mallocs = none)) ∧
    (¬(s.cache.fastbin = [] ∧ s.cache.current_slab = none ∧
       s.cache.partial_slabs = none ∧ mallocHead s.mallocs = none) →
      ∃ b s', slab_alloc 2 s = .ok b s') := by
  have h2 : slab_alloc 2 s = slab_alloc_body (slab_alloc 1) s := rfl
  rcases body_tiers s hInv with hserve | ⟨⟨s₁, hdel, hInv₁, hs₁⟩, hside⟩ | ⟨⟨s', hoom⟩, hside⟩
  · obtain ⟨b, s'', hok⟩ := (body_serves hserve (slab_alloc 1) (slab_alloc 1)).2
    have hokres : slab_alloc 2 s = .ok b s'' := by rw [h2]; exact hok
    constructor
    · constructor
      · rintro ⟨t, ht⟩
        rw [hokres] at ht
        exact absurd ht (by simp)
      · intro hcond
        exfalso
        rcases hserve with h | ⟨k, sl, hcur, _, _, _⟩
        · exact h hcond.1
        · rw [hcond.2.1] at hcur
          exact absurd hcur (by simp)
    · intro _
      exact ⟨b, s'', hokres⟩
  · have h1 : slab_alloc 1 s₁ = slab_alloc_body (slab_alloc 0) s₁ := rfl
    obtain ⟨b, s'', hok⟩ := (body_serves hs₁ (slab_alloc 0) (slab_alloc 0)).2
    have hokres : slab_alloc 2 s = .ok b s'' := by rw [h2, hdel, h1]; exact hok
    constructor
    · constructor
      · rintro ⟨t, ht⟩
        rw [hokres] at ht
        exact absurd ht (by simp)
      · intro hcond
        exact absurd ⟨hcond.2.2.1, hcond.2.2.2⟩ hside
    · intro _
      exact ⟨b, s'', hokres⟩
  · constructor
    · constructor
      · intro _
        exact hside
      · intro _
        exact ⟨s', by rw [h2]; exact hoom _⟩
    · intro hcond
      exact absurd hside hcond

/-! Claim theorems. -/

/-- C1: the claim says SLAB_OVERHEAD = ceil(sizeof(Slab) / BLOCK_SIZE)
(1 block for the 56-byte header) and EFFECTIVE_BLOCKS = 1023.  The code's
SLAB_OVERHEAD = ALIGN_UP(sizeof(Slab), BLOCK_SIZE) is a byte count, 64,
used as a block count, so EFFECTIVE_BLOCKS = 960: the code contradicts its
own comment (how many blocks are used by the slab pointer) and the spec's
formula, wasting 63 blocks per slab. -/
theorem C1_overhead_bug :
    SLAB_OVERHEAD = 64 ∧ EFFECTIVE_BLOCKS = 960 ∧
    spec_slab_overhead = 1 ∧ spec_effective_blocks = 1023 ∧
    SLAB_OVERHEAD ≠ spec_slab_overhead ∧
    EFFECTIVE_BLOCKS ≠ spec_effective_blocks := by
  refine ⟨rfl, rfl, rfl, rfl, by decide, by decide⟩

/-- Starting state of the batched-refill scenario: a fresh thread whose
system allocator will return the (already aligned) address 65536. -/
def c2_start : AllocState := initState [some 65536]

/-- C2, counterexample: in the 33-call scenario the fastbin is already
empty after call 32 (call 1 leaves only 31 blocks in it, because the block
it returns is popped from the refilled fastbin), so call 33 triggers a
second batched refill and leaves free_count = EFFECTIVE_BLOCKS - 64, not
EFFECTIVE_BLOCKS - 33. -/
theorem C2_counterexample :
    ((iterAlloc 32 c2_start).map (fun s => s.cache.fastbin) = some []) ∧
    ((iterAlloc 33 c2_start).map
      (fun s => (lookupSlab s.slabs 65536).map Slab.free_count) =
      some (some (EFFECTIVE_BLOCKS - 64))) ∧
    EFFECTIVE_BLOCKS - 64 ≠ EFFECTIVE_BLOCKS - 33 := by
  refine ⟨by decide, by decide, by decide⟩

/-- C2, amended: call 1 builds the slab, moves 32 blocks to the fastbin and
returns one of them (leaving 31, with free_count = EFFECTIVE_BLOCKS - 32);
calls 2 to 32 pop the fastbin, emptying it at call 32 while free_count is
unchanged; call 33 triggers a second batched refill and leaves
free_count = EFFECTIVE_BLOCKS - 64 and fastbin_count = 31. -/
theorem C2_amended :
    ((iterAlloc 1 c2_start).map
      (fun s => (s.cache.fastbin_count, s.slabs.length,
        (lookupSlab s.slabs 65536).map Slab.free_count)) =
      some (31, 1, some (EFFECTIVE_BLOCKS - 32))) ∧
    (((List.range 31).all fun j =>
      (iterAlloc (j + 2) c2_start).map
        (fun s => (s.cache.fastbin_count,
          (lookupSlab s.slabs 65536).map Slab.free_count)) =
        some (30 - j, some (EFFECTIVE_BLOCKS - 32))) = true) ∧
    ((iterAlloc 32 c2_start).map (fun s => s.cache.fastbin) = some []) ∧
    ((iterAlloc 33 c2_start).map
      (fun s => (s.cache.fastbin_count,
        (lookupSlab s.slabs 65536).map Slab.free_count)) =
      some (31, some (EFFECTIVE_BLOCKS - 64))) := by
  refine ⟨by decide, by decide, by decide, by decide⟩

/-! Fastbin bookkeeping is preserved from any state satisfying it alone;
this is the standalone content of claim C4. -/

theorem fb_free {s : AllocState} {b : Nat} {s' : AllocState}
    (h : FastbinInv s.cache) (hf : slab_free s b = some s') : FastbinInv s'.cache := by
  unfold slab_free at hf
  by_cases hlt : s.cache.fastbin_count < BLOCK_CACHE_LIMIT
  · rw [if_pos hlt] at hf
    cases hf
    refine ⟨?_, ?_⟩
    · show s.cache.fastbin_count + 1 = (b :: s.cache.fastbin).length
      simp [h.1]
    · show s.cache.fastbin_count + 1 ≤ BLOCK_CACHE_LIMIT
      omega
  · rw [if_neg hlt] at hf
    cases hpar : lookupSlab s.slabs (maskRegion b) with
    | none => simp only [hpar] at hf; simp at hf
    | some parent =>
        simp only [hpar] at hf
        split at hf <;> cases hf <;> exact ⟨h.1, h.2⟩

theorem fb_tiers34 {recurse : AllocState → AResult}
    (hrecOk : ∀ t b s', FastbinInv t.cache → recurse t = .ok b s' → FastbinInv s'.cache)
    (hrecOom : ∀ t s', FastbinInv t.cache → recurse t = .oom s' → FastbinInv s'.cache)
    {s : AllocState} (h : FastbinInv s.cache) :
    (∀ b s', slab_alloc_tiers34 recurse s = .ok b s' → FastbinInv s'.cache) ∧
    (∀ s', slab_alloc_tiers34 recurse s = .oom s' → FastbinInv s'.cache) := by
  unfold slab_alloc_tiers34
  cases hpk : s.cache.partial_slabs with
  | some pk =>
      simp only [hpk]
      cases hlk : lookupSlab s.slabs pk with
      | none =>
          constructor
          · intro b s' hx; simp at hx
          · intro s' hx; simp at hx
      | some psl =>
          simp only [hlk]
          constructor
          · intro b s' hx
            refine hrecOk _ b s' ?_ hx
            exact ⟨h.1, h.2⟩
          · intro s' hx
            refine hrecOom _ s' ?_ hx
            exact ⟨h.1, h.2⟩
  | none =>
      simp only [hpk]
      cases hm : s.mallocs with
      | nil =>
          simp only [allocate_new_slab, hm]
          constructor
          · intro b s' hx; simp at hx
          · intro s' hx
            simp at hx
            subst hx
            exact h
      | cons ro rest =>
          cases ro with
          | none =>
              simp only [allocate_new_slab, hm]
              constructor
              · intro b s' hx; simp at hx
              · intro s' hx
                simp at hx
                subst hx
                exact ⟨h.1, h.2⟩
          | some raw =>
              simp only [allocate_new_slab, hm]
              constructor
              · intro b s' hx
                refine hrecOk _ b s' ?_ hx
                exact ⟨h.1, h.2⟩
              · intro s' hx
                refine hrecOom _ s' ?_ hx
                exact ⟨h.1, h.2⟩

theorem fb_alloc : ∀ (f : Nat) {s : AllocState}, FastbinInv s.cache →
    (∀ b s', slab_alloc f s = .ok b s' → FastbinInv s'.cache) ∧
    (∀ s', slab_alloc f s = .oom s' → FastbinInv s'.cache) := by
  intro f
  induction f with
  | zero =>
      intro s h
      constructor
      · intro b s' hx; simp [slab_alloc] at hx
      · intro s' hx; simp [slab_alloc] at hx
  | succ f ih =>
      intro s h
      have hrecOk : ∀ t b s', FastbinInv t.cache → slab_alloc f t = .ok b s' → FastbinInv s'.cache :=
        fun t b s' ht hx => (ih ht).1 b s' hx
      have hrecOom : ∀ t s', FastbinInv t.cache → slab_alloc f t = .oom s' → FastbinInv s'.cache :=
        fun t s' ht hx => (ih ht).2 s' hx
      rw [slab_alloc_succ]
      unfold slab_alloc_body
      cases hfb : s.cache.fastbin with
      | cons blk rest =>
          simp only [hfb]
          constructor
          · intro b s' hx
            simp at hx
            obtain ⟨_, hs⟩ := hx
            subst hs
            have h1 := h.1
            have h2 := h.2
            rw [hfb] at h1
            simp at h1
            exact ⟨by show s.cache.fastbin_count - 1 = rest.length; omega,
              by show s.cache.fastbin_count - 1 ≤ BLOCK_CACHE_LIMIT; omega⟩
          · intro s' hx; simp at hx
      | nil =>
          simp only [hfb]
          have hcount0 : s.cache.fastbin_count = 0 := by
            have := h.1; rw [hfb] at this; simpa using this
          cases hcur : s.cache.current_slab with
          | some k =>
              simp only [hcur]
              cases hlk : lookupSlab s.slabs k with
              | none =>
                  constructor
                  · intro b s' hx; simp at hx
                  · intro s' hx; simp at hx
              | some sl =>
                  simp only [hlk]
                  by_cases hfc0 : sl.free_count ≠ 0
                  · rw [if_pos hfc0]
                    by_cases hgt : sl.free_count > BLOCK_CACHE_REFILL_LIMIT
                    · rw [if_pos hgt]
                      cases hdet : detachBatch BLOCK_CACHE_REFILL_LIMIT sl.free_list with
                      | none =>
                          constructor
                          · intro b s' hx; simp at hx
                          · intro s' hx; simp at hx
                      | some p =>
                          obtain ⟨batch, rem⟩ := p
                          simp only [hdet]
                          cases hfold : batch.foldl (fun fb b => b :: fb) ([] : List Nat) with
                          | nil =>
                              constructor
                              · intro b s' hx; simp at hx
                              · intro s' hx; simp at hx
                          | cons blk fbrest =>
                              simp only [hfold]
                              constructor
                              · intro b s' hx
                                simp at hx
                                obtain ⟨_, hs⟩ := hx
                                subst hs
                                have hblen := (detachBatch_spec hdet).2
                                have hflen := congrArg List.length hfold
                                rw [foldl_push_eq, List.append_nil, List.length_reverse, hblen] at hflen
                                simp at hflen
                                have hc32 : BLOCK_CACHE_REFILL_LIMIT = 32 := rfl
                                have hc64 : BLOCK_CACHE_LIMIT = 64 := rfl
                                exact ⟨by show s.cache.fastbin_count + BLOCK_CACHE_REFILL_LIMIT - 1 = fbrest.length; omega,
                                  by show s.cache.fastbin_count + BLOCK_CACHE_REFILL_LIMIT - 1 ≤ BLOCK_CACHE_LIMIT; omega⟩
                              · intro s' hx; simp at hx
                    · rw [if_neg hgt]
                      cases hfl : sl.free_list with
                      | nil =>
                          constructor
                          · intro b s' hx; simp at hx
                          · intro s' hx; simp at hx
                      | cons blk fl =>
                          simp only [hfl]
                          constructor
                          · intro b s' hx
                            simp at hx
                            obtain ⟨_, hs⟩ := hx
                            subst hs
                            exact ⟨by show s.cache.fastbin_count = List.length []; rw [hcount0]; rfl,
                              by show s.cache.fastbin_count ≤ BLOCK_CACHE_LIMIT; exact h.2⟩
                          · intro s' hx; simp at hx
                  · rw [if_neg hfc0]
                    exact fb_tiers34 hrecOk hrecOom h
          | none =>
              simp only [hcur]
              exact fb_tiers34 hrecOk hrecOom h

/-- C4: fastbin_count equals the fastbin's length and is bounded by
BLOCK_CACHE_LIMIT, and every slab_alloc call (at any recursion bound, both
on success and on OutOfMemory) and every slab_free call preserves this
bookkeeping: the free fast path pushes only when fastbin_count <
BLOCK_CACHE_LIMIT, and the batched refill adds BLOCK_CACHE_REFILL_LIMIT
blocks only when the fastbin is empty, so the bound 64 is never exceeded. -/
theorem C4_fastbin_invariant (s : AllocState) (h : FastbinInv s.cache) (f : Nat) :
    (∀ b s', slab_alloc f s = .ok b s' → FastbinInv s'.cache) ∧
    (∀ s', slab_alloc f s = .oom s' → FastbinInv s'.cache) ∧
    (∀ b s', slab_free s b = some s' → FastbinInv s'.cache) :=
  ⟨(fb_alloc f h).1, (fb_alloc f h).2, fun _ _ hf => fb_free h hf⟩

/-- C4 witness: the theorem applied to a fresh cache performing one
allocation from a scripted slab, and a free. -/
theorem C4_witness :
    FastbinInv (initState [some 65536]).cache ∧
    (∀ b s', slab_alloc 4 (initState [some 65536]) = .ok b s' → FastbinInv s'.cache) ∧
    (∀ b s', slab_free (initState [some 65536]) b = some s' → FastbinInv s'.cache) :=
  ⟨⟨rfl, by decide⟩, (C4_fastbin_invariant _ ⟨rfl, by decide⟩ 4).1,
    (C4_fastbin_invariant _ ⟨rfl, by decide⟩ 4).2.2⟩

/-- C3: every block address returned by slab_alloc in a reachable state
satisfies ownership recovery — masking it with the region size and loading
the word stored at the masked address yields the owning slab header, whose
mem field equals the masked address; and the one-alignment-unit
over-allocation of allocate_new_slab makes the aligned region fit inside
the raw allocation. -/
theorem C3_ownership_recovery :
    (∀ (s : AllocState) (f b : Nat) (s' : AllocState),
      Reachable s → slab_alloc f s = .ok b s' → GoodBlock s'.slabs b) ∧
    (∀ raw : Nat, ALIGN_UP raw (BLOCK_SIZE * BLOCK_COUNT) + BLOCK_SIZE * BLOCK_COUNT ≤
      raw + 2 * (BLOCK_SIZE * BLOCK_COUNT)) :=
  ⟨fun _ f _ _ hs hok => (((alloc_sound f) _ (reach_inv hs)).2.1 _ _ hok).2,
    aligned_region_fits⟩

/-- Scripted fresh thread for the C3 witness. -/
def c3_start : AllocState := initState [some 65536]

/-- State after the first allocation of the C3 witness scenario. -/
def c3_after : AllocState :=
  match slab_alloc 4 c3_start with
  | .ok _ s => s
  | _ => c3_start

/-- Block returned by the first allocation of the C3 witness scenario. -/
def c3_block : Nat :=
  match slab_alloc 4 c3_start with
  | .ok b _ => b
  | _ => 0

/-- C3 witness: the first block handed out by a fresh thread recovers its
slab through the region mask. -/
theorem C3_witness : GoodBlock c3_after.slabs c3_block :=
  C3_ownership_recovery.1 c3_start 4 c3_block c3_after
    (Reachable.init _ (by decide)) (by decide)

/-- Scripted fresh thread for the exhaustion scenario of C5. -/
def c5_start : AllocState := initState [some 65536, some 262144]

/-- C5: allocating exactly EFFECTIVE_BLOCKS blocks from a fresh thread
leaves the constructed slab with free_count 0, current_slab null and the
slab on no list; the next call builds a fresh slab; and in general the
non-refill path pops the free-list head, decrements free_count and nulls
current_slab exactly when free_count reaches zero. -/
theorem C5_exhaustion :
    ((iterAlloc 959 c5_start).map
      (fun s => (s.cache.current_slab, (lookupSlab s.slabs 65536).map Slab.free_count)) =
      some (some 65536, some 1)) ∧
    ((iterAlloc EFFECTIVE_BLOCKS c5_start).map
      (fun s => (s.cache.current_slab, s.cache.partial_slabs, s.cache.fastbin,
        (lookupSlab s.slabs 65536).map Slab.free_count, s.slabs.length)) =
      some (none, none, [], some 0, 1)) ∧
    ((iterAlloc (EFFECTIVE_BLOCKS + 1) c5_start).map
      (fun s => (s.slabs.length, s.cache.current_slab)) = some (2, some 262144)) ∧
    (∀ (s : AllocState) (f k : Nat) (sl : Slab) (blk : Nat) (fl : List Nat),
      s.cache.fastbin = [] → s.cache.current_slab = some k →
      lookupSlab s.slabs k = some sl →
      ¬ sl.free_count > BLOCK_CACHE_REFILL_LIMIT → sl.free_count ≠ 0 →
      sl.free_list = blk :: fl →
      slab_alloc (f + 1) s = .ok blk
        { slabs := updateSlab s.slabs k { sl with free_list := fl, free_count := sl.free_count - 1 }
          cache := { s.cache with current_slab := if sl.free_count - 1 = 0 then none else some k }
          mallocs := s.mallocs }) := by
  refine ⟨by decide, by decide, by decide, ?_⟩
  intro s f k sl blk fl hfb hcur hlk hngt hfc0 hfl
  rw [slab_alloc_succ]
  unfold slab_alloc_body
  simp only [hfb, hcur, hlk]
  rw [if_pos hfc0, if_neg hngt]
  simp only [hfl]

/-- Concrete one-block state for the C5 witness: the slab at 65536 has one
free block left. -/
def c5_wstate : AllocState :=
  { slabs := [(65536, { mem := 65536, raw_allocation := 65536, free_count := 1, free_list := [69632], next := none })]
    cache := { current_slab := some 65536, partial_slabs := none, fastbin := [], fastbin_count := 0 }
    mallocs := [] }

/-- C5 witness: the non-refill pop applied at a concrete state with one
free block left nulls current_slab. -/
theorem C5_witness :
    slab_alloc 1 c5_wstate = .ok 69632
      { slabs := updateSlab c5_wstate.slabs 65536 { mem := 65536, raw_allocation := 65536, free_count := 0, free_list := [], next := none }
        cache := { c5_wstate.cache with current_slab := none }
        mallocs := [] } := by
  have h := C5_exhaustion.2.2.2 c5_wstate 0 65536
    { mem := 65536, raw_allocation := 65536, free_count := 1, free_list := [69632], next := none }
    69632 [] rfl rfl (by decide) (by decide) (by decide) rfl
  exact h

/-- C6: with a saturated fastbin, slab_free recovers the owning slab from
the masked block address, pushes the block onto that slab's free list,
increments its free_count, and links the slab at the head of the calling
thread's partial_slabs exactly when the incremented free_count is 1 and the
slab is not the caller's current_slab (in that case the slab's next field
is pointed at the old partial head). -/
theorem C6_slow_path (s : AllocState) (b : Nat) (parent : Slab)
    (hsat : ¬ s.cache.fastbin_count < BLOCK_CACHE_LIMIT)
    (hlook : lookupSlab s.slabs (maskRegion b) = some parent) :
    ∃ s' parent', slab_free s b = some s' ∧
      lookupSlab s'.slabs (maskRegion b) = some parent' ∧
      parent'.free_list = b :: parent.free_list ∧
      parent'.free_count = parent.free_count + 1 ∧
      (s'.cache.partial_slabs =
        if parent.free_count + 1 = 1 ∧ s.cache.current_slab ≠ some (maskRegion b)
        then some (maskRegion b) else s.cache.partial_slabs) ∧
      (parent.free_count + 1 = 1 ∧ s.cache.current_slab ≠ some (maskRegion b) →
        parent'.next = s.cache.partial_slabs) ∧
      s'.cache.current_slab = s.cache.current_slab ∧
      s'.cache.fastbin = s.cache.fastbin ∧
      s'.cache.fastbin_count = s.cache.fastbin_count := by
  unfold slab_free
  rw [if_neg hsat]
  simp only [hlook]
  by_cases hcond : parent.free_count + 1 = 1 ∧ s.cache.current_slab ≠ some (maskRegion b)
  · rw [if_pos hcond]
    refine ⟨_, _, rfl, lookupSlab_update_self hlook _, rfl, rfl, ?_, ?_, rfl, rfl, rfl⟩
    · rw [if_pos hcond]
    · intro _; rfl
  · rw [if_neg hcond]
    refine ⟨_, _, rfl, lookupSlab_update_self hlook _, rfl, rfl, ?_, ?_, rfl, rfl, rfl⟩
    · rw [if_neg hcond]
    · intro hc; exact absurd hc hcond

/-- Saturated-fastbin state for the C6 witness: one full slab at 65536 and
a fastbin holding BLOCK_CACHE_LIMIT foreign blocks. -/
def c6_wstate : AllocState :=
  { slabs := [(65536, { mem := 65536, raw_allocation := 65536, free_count := 0, free_list := [], next := none })]
    cache :=
      { current_slab := none
        partial_slabs := none
        fastbin := (List.range BLOCK_CACHE_LIMIT).map (fun i => 266240 + i * 64)
        fastbin_count := BLOCK_CACHE_LIMIT }
    mallocs := [] }

/-- C6 witness: freeing block 69632 of the full slab at 65536 with a
saturated fastbin takes the slow path and links the slab as partial head. -/
theorem C6_witness :
    ∃ s' parent', slab_free c6_wstate 69632 = some s' ∧
      lookupSlab s'.slabs (maskRegion 69632) = some parent' ∧
      parent'.free_list = 69632 :: [] ∧
      parent'.free_count = 0 + 1 ∧
      (s'.cache.partial_slabs =
        if 0 + 1 = 1 ∧ c6_wstate.cache.current_slab ≠ some (maskRegion 69632)
        then some (maskRegion 69632) else c6_wstate.cache.partial_slabs) ∧
      (0 + 1 = 1 ∧ c6_wstate.cache.current_slab ≠ some (maskRegion 69632) →
        parent'.next = c6_wstate.cache.partial_slabs) ∧
      s'.cache.current_slab = c6_wstate.cache.current_slab ∧
      s'.cache.fastbin = c6_wstate.cache.fastbin ∧
      s'.cache.fastbin_count = c6_wstate.cache.fastbin_count :=
  C6_slow_path c6_wstate 69632
    { mem := 65536, raw_allocation := 65536, free_count := 0, free_list := [], next := none }
    (by decide) (by decide)

/-- C7: with an unsaturated fastbin, slab_free only pushes the block onto
the calling thread's fastbin (writing the block's next word) and increments
fastbin_count; the slab store — every slab's free_list, free_count and next
— and the current and partial lists are untouched, so a cross-thread free
that lands in the fastbin leaves the owning slab's free_count unchanged. -/
theorem C7_fast_path (s : AllocState) (b : Nat)
    (hlt : s.cache.fastbin_count < BLOCK_CACHE_LIMIT) :
    ∃ s', slab_free s b = some s' ∧
      s'.slabs = s.slabs ∧
      s'.cache.current_slab = s.cache.current_slab ∧
      s'.cache.partial_slabs = s.cache.partial_slabs ∧
      s'.cache.fastbin = b :: s.cache.fastbin ∧
      s'.cache.fastbin_count = s.cache.fastbin_count + 1 ∧
      s'.mallocs = s.mallocs := by
  unfold slab_free
  rw [if_pos hlt]
  exact ⟨_, rfl, rfl, rfl, rfl, rfl, rfl, rfl⟩

/-- C7 witness: a free on a fresh cache lands in the fastbin and leaves the
(empty) slab store untouched. -/
theorem C7_witness :
    ∃ s', slab_free (initState []) 69632 = some s' ∧
      s'.slabs = (initState []).slabs ∧
      s'.cache.current_slab = (initState []).cache.current_slab ∧
      s'.cache.partial_slabs = (initState []).cache.partial_slabs ∧
      s'.cache.fastbin = 69632 :: (initState []).cache.fastbin ∧
      s'.cache.fastbin_count = (initState []).cache.fastbin_count + 1 ∧
      s'.mallocs = (initState []).mallocs :=
  C7_fast_path (initState []) 69632 (by decide)

/-- C8: in a reachable state, slab_alloc reports OutOfMemory exactly when
the fastbin, current slab and partial list are all exhausted and the system
allocator refuses the Tier 4 request; in every other situation it returns a
block address. -/
theorem C8_oom_characterisation (s : AllocState) (hs : Reachable s) :
    ((∃ s', slab_alloc 2 s = .oom s') ↔
      (s.cache.fastbin = [] ∧ s.cache.current_slab = none ∧
       s.cache.partial_slabs = none ∧ mallocHead s.mallocs = none)) ∧
    (¬(s.cache.fastbin = [] ∧ s.cache.current_slab = none ∧
       s.cache.partial_slabs = none ∧ mallocHead s.mallocs = none) →
      ∃ b s', slab_alloc 2 s = .ok b s') :=
  alloc_oom_char (reach_inv hs)

/-- C8 witness: a fresh thread whose system allocator refuses the request
gets OutOfMemory. -/
theorem C8_witness : ∃ s', slab_alloc 2 (initState [none]) = .oom s' :=
  (C8_oom_characterisation _ (Reachable.init _ (by decide))).1.2
    ⟨rfl, rfl, rfl, rfl⟩

/-- C10: in a reachable (single-threaded) state the partial_slabs chain is
a finite list of slabs each holding at least one free block, so a tail call
installed from it (or a fresh slab from Tier 4) is served without recursing
again: recursion depth 2 — fuel for the first activation plus one tail
call — always suffices, and the result does not change with more fuel, so
slab_alloc always terminates. -/
theorem C10_recursion_bound (s : AllocState) (hs : Reachable s) :
    (∃ l, PChain s.slabs s.cache.partial_slabs l) ∧
    slab_alloc 2 s ≠ .fuel ∧
    (∀ f : Nat, slab_alloc (f + 2) s = slab_alloc 2 s) := by
  have hInv := reach_inv hs
  obtain ⟨l, hchain, _⟩ := hInv.chain
  exact ⟨⟨l, hchain⟩, (alloc_fuel_two hInv).1, (alloc_fuel_two hInv).2⟩

/-- C10 witness: on a fresh thread with a scripted slab, fuel 2 does not
run out. -/
theorem C10_witness : slab_alloc 2 (initState [some 65536]) ≠ AResult.fuel :=
  (C10_recursion_bound _ (Reachable.init _ (by decide))).2.1

/-- Scripted fresh thread for the destructor scenario of C9: the system
allocator hands out two disjoint aligned regions. -/
def c9_start : AllocState := initState [some 65536, some 262144]

/-- C9 scenario, stage 1: after EFFECTIVE_BLOCKS allocations slab A (base
65536) is fully allocated and tracked by no list. -/
def c9_m1 : AllocState :=
  { slabs := [(65536, { mem := 65536, raw_allocation := 65536, free_count := 0, free_list := [], next := none })]
    cache := { current_slab := none, partial_slabs := none, fastbin := [], fastbin_count := 0 }
    mallocs := [some 262144] }

/-- C9 scenario, stage 2: after EFFECTIVE_BLOCKS further allocations slab B
(base 262144) is fully allocated as well. -/
def c9_mid : AllocState :=
  { slabs := [(262144, { mem := 262144, raw_allocation := 262144, free_count := 0, free_list := [], next := none }),
              (65536, { mem := 65536, raw_allocation := 65536, free_count := 0, free_list := [], next := none })]
    cache := { current_slab := none, partial_slabs := none, fastbin := [], fastbin_count := 0 }
    mallocs := [] }

/-- C9 scenario, stage 3: 64 frees of B-blocks fill the fastbin; a free of
an A-block and two frees of B-blocks take the slow path, putting the
partial list into the shape B -> A; 64 allocations drain the fastbin and
one more allocation installs B as current slab via Tier 3 — without
clearing B's next pointer, which still reaches A while A is also the
partial-list head. -/
def c9_end : Option AllocState :=
  (freeMany ((List.range 64).map (fun i => 266240 + i * 64)) c9_mid).bind fun s3 =>
  (slab_free s3 69632).bind fun s4 =>
  (freeMany [266240 + 64 * 64, 266240 + 65 * 64] s4).bind fun s5 =>
  iterAlloc 65 s5

/-- C9: the claim (each slab on the exiting thread's current_slab list and
partial_slabs list is released exactly once) fails on the code: Tier 3 of
slab_alloc installs the partial head as current slab without clearing its
next pointer, so after the scenario above the current chain is B -> A while
A is also the whole partial chain, and the destructor walks raw_allocation
65536 (slab A) twice — a double free. -/
theorem C9_destructor_double_free :
    (iterAlloc EFFECTIVE_BLOCKS c9_start = some c9_m1) ∧
    (iterAlloc EFFECTIVE_BLOCKS c9_m1 = some c9_mid) ∧
    (c9_end.map (fun s => (s.cache.current_slab, s.cache.partial_slabs,
      (lookupSlab s.slabs 262144).map Slab.next)) =
      some (some 262144, some 65536, some (some 65536))) ∧
    (c9_end.map slab_thread_destructor = some [262144, 65536, 65536]) ∧
    (c9_end.map (fun s => (slab_thread_destructor s).count 65536) = some 2) := by
  refine ⟨by decide, by decide, by decide, by decide, by decide⟩

end ThreadAlloc
